import Mathlib

/-!
Verification development for the UCLA RSU availability tracker.

The TypeScript/JavaScript sources are shallowly embedded here:

* `src/app/api/upload/route.ts` — interactive upload ingestion
  (`parseLastUpdated`, `parseCSV`, the `POST` handler's store update);
* `src/scripts/fetch-snapshot.mjs` — scheduled fetch ingestion
  (`parseLastUpdated`, `parseCSV`, the `main` store update);
* `src/app/page.tsx` — the aggregation logic embedded in the `Home`
  component (`latest`, `prev`, `prevTotals`, `table`).

Strings are modelled as `List Char` internally (`String.data`); JavaScript
`undefined` cell accesses are modelled by the empty string, which is
observationally equal to `undefined` at every use site in these sources
(both are falsy, both parse to `NaN`, both coerce to the defaults).
Machine numbers in these sources are JavaScript numbers used only at
integer values, modelled by `Int`/`Nat`.
-/

/-- Characters treated as whitespace by the JavaScript operations used in
the sources (`String.prototype.trim`, the regex class `\s`): ASCII blanks
plus NBSP and the BOM. -/
def isJsWS (c : Char) : Bool :=
  c = ' ' || c = '\t' || c = '\n' || c = '\r' || c = '\x0b' || c = '\x0c' ||
  c = ' ' || c = '\u00A0' || c = '\uFEFF'

/-- JavaScript `String.prototype.trim` on a character list. -/
def trimC (l : List Char) : List Char :=
  ((l.dropWhile isJsWS).reverse.dropWhile isJsWS).reverse

/-- JavaScript `str.split(sep)` for a single-character separator:
`"".split` gives `[""]`, separators at the ends give empty fields. -/
def splitOnC (sep : Char) : List Char → List (List Char)
  | [] => [[]]
  | c :: cs =>
    match splitOnC sep cs with
    | [] => [[c]]
    | h :: t => if c = sep then [] :: h :: t else (c :: h) :: t

/-- JavaScript `str.replace(/"/g, "")`. -/
def noQuotes (l : List Char) : List Char :=
  l.filter (fun c => ¬ c = '"')

/-- JavaScript `str.toLowerCase()` (ASCII range, which is all the
sources compare). -/
def lowerC (l : List Char) : List Char :=
  l.map Char.toLower

/-- JavaScript `str.toUpperCase()` (ASCII range). -/
def upperC (l : List Char) : List Char :=
  l.map Char.toUpper

/-- Does `hay` start with `needle`? -/
def swC : List Char → List Char → Bool
  | [], _ => true
  | _ :: _, [] => false
  | a :: as, b :: bs => a = b && swC as bs

/-- JavaScript `hay.includes(needle)`: substring containment. -/
def hasSubC (needle : List Char) : List Char → Bool
  | [] => swC needle []
  | c :: cs => swC needle (c :: cs) || hasSubC needle cs

/-- JavaScript `Array.prototype.findIndex`, with `-1` modelled as `none`. -/
def fidx (p : α → Bool) : List α → Option Nat
  | [] => none
  | a :: as => if p a then some 0 else (fidx p as).map (· + 1)

/-- Numeric value of a list of decimal digit characters. -/
def digitsToNat (l : List Char) : Nat :=
  l.foldl (fun acc c => acc * 10 + (c.toNat - 48)) 0

/-- Decimal digits of a natural number, fuel-driven so that it reduces
definitionally. -/
def natCharsAux : Nat → Nat → List Char
  | 0, _ => []
  | fuel + 1, n =>
    if n < 10 then [Nat.digitChar n]
    else natCharsAux fuel (n / 10) ++ [Nat.digitChar (n % 10)]

/-- JavaScript `String(n)` for a natural number. -/
def natChars (n : Nat) : List Char :=
  natCharsAux (n + 1) n

/-- JavaScript `str.padStart(2, "0")`. -/
def pad2 (l : List Char) : List Char :=
  if l.length = 0 then ['0', '0'] else if l.length = 1 then '0' :: l else l

def isDigitC (c : Char) : Bool :=
  '0' ≤ c && c ≤ '9'

def isHexDigitC (c : Char) : Bool :=
  isDigitC c || ('a' ≤ c && c ≤ 'f') || ('A' ≤ c && c ≤ 'F')

def hexVal (c : Char) : Nat :=
  if isDigitC c then c.toNat - 48
  else if 'a' ≤ c && c ≤ 'f' then c.toNat - 87
  else c.toNat - 55

def digitsToNatHex (l : List Char) : Nat :=
  l.foldl (fun acc c => acc * 16 + hexVal c) 0

/-- JavaScript `parseInt(s)` (radix unspecified): skip leading whitespace,
optional sign, an optional `0x`/`0X` hex prefix, then the longest run of
digits; `NaN` is modelled as `none`. -/
def parseIntJS (l : List Char) : Option Int :=
  let l1 := l.dropWhile isJsWS
  let (neg, l2) :=
    match l1 with
    | '-' :: r => (true, r)
    | '+' :: r => (false, r)
    | r => (false, r)
  let core : Option Nat :=
    match l2 with
    | '0' :: 'x' :: r =>
      let ds := r.takeWhile isHexDigitC
      if ds.length = 0 then none else some (digitsToNatHex ds)
    | '0' :: 'X' :: r =>
      let ds := r.takeWhile isHexDigitC
      if ds.length = 0 then none else some (digitsToNatHex ds)
    | r =>
      let ds := r.takeWhile isDigitC
      if ds.length = 0 then none else some (digitsToNat ds)
  core.map (fun n => if neg then -(n : Int) else (n : Int))

/-- JavaScript `parseInt(s) || 0`: `NaN` and `±0` both give `0`. -/
def jsIntOr0 (l : List Char) : Int :=
  (parseIntJS l).getD 0

/-! ## Schema inference (`findCol` and the keyword lists, identical in
`route.ts` and `fetch-snapshot.mjs`) -/

def buildingKws : List (List Char) :=
  ["building".data, "location".data, "hall".data, "residence".data]

def roomTypeKws : List (List Char) :=
  ["room type".data, "roomtype".data, "type".data, "unit".data]

def genderKws : List (List Char) :=
  ["gender".data, "sex".data, "assignment".data]

def bedKws : List (List Char) :=
  ["bed".data, "spaces".data, "available".data, "count".data]

def updatedKws : List (List Char) :=
  ["last updated".data, "lastupdated".data, "updated".data]

/-- `findCol`: first keyword (in priority order) that any header contains;
ties among headers break by earliest header position. -/
def findCol (hs : List (List Char)) : List (List Char) → Option Nat
  | [] => none
  | kw :: kws =>
    match fidx (fun h => hasSubC kw h) hs with
    | some i => some i
    | none => findCol hs kws

/-- Header normalisation: `h.trim().toLowerCase().replace(/"/g, "")`. -/
def normHeader (l : List Char) : List Char :=
  noQuotes (lowerC (trimC l))

/-! ## Row parsing -/

/-- One canonical availability row. -/
structure Row where
  building : String
  roomType : String
  gender : String
  bedSpaces : Int
  deriving DecidableEq, Repr

/-- The quote-aware cell splitter from the data-line loop of both
`parseCSV` implementations: `"` toggles the in-quotes flag and is
dropped, `,` outside quotes ends a cell, every cell is trimmed. -/
def splitCellsGo : List Char → List Char → Bool → List (List Char)
  | [], cur, _ => [trimC cur]
  | c :: cs, cur, q =>
    if c = '"' then splitCellsGo cs cur (!q)
    else if c = ',' && !q then trimC cur :: splitCellsGo cs [] q
    else splitCellsGo cs (cur ++ [c]) q

def splitCells (l : List Char) : List (List Char) :=
  splitCellsGo l [] false

/-- `cells[i]?.replace(/"/g, "").trim()`, with a missing cell modelled as
the empty string. -/
def cleanCell (cells : List (List Char)) (i : Nat) : List Char :=
  trimC (noQuotes (cells.getD i []))

/-- Construction of one `Row` from a split data line, given the resolved
column indices (`building` and `bedSpaces` are required to have resolved;
the optional two may be unresolved).  Returns `none` exactly when the
building cell is blank after trimming (the `if (!building) continue`). -/
def buildRow (bi : Nat) (ri gi : Option Nat) (bei : Nat)
    (cells : List (List Char)) : Option Row :=
  let b := cleanCell cells bi
  if b = [] then none
  else some {
    building := ⟨b⟩
    roomType :=
      match ri with
      | none => "Unknown"
      | some i => let v := cleanCell cells i; if v = [] then "Unknown" else ⟨v⟩
    gender :=
      match gi with
      | none => "All"
      | some i => let v := cleanCell cells i; if v = [] then "All" else ⟨v⟩
    bedSpaces := jsIntOr0 (noQuotes (cells.getD bei [])) }

/-! ## Timestamp resolvers

Both modules match the cleaned field against
`^(\d{1,2})\/(\d{1,2})\/(\d{4})\s+(\d{1,2}):(\d{2})(.*)$`.  Because the
digit groups are bounded by non-digit separators, the backtracking regex
succeeds exactly when the maximal digit runs have the lengths 1-2, 1-2,
4, 1-2 and at least 2, so a maximal-munch parser is equivalent; `.` does
not match line separators, so the trailing group must be free of them. -/

/-- The capture groups of the timestamp regex (digit strings kept raw,
as the sources keep them). -/
structure TsMatch where
  monthS : List Char
  dayS : List Char
  yearS : List Char
  hourS : List Char
  minS : List Char
  rest : List Char
  deriving DecidableEq, Repr

def isLineSep (c : Char) : Bool :=
  c = '\n' || c = '\r' || c = ' ' || c = ' '

/-- Matching the shared timestamp regex against a cleaned field. -/
def matchTS (l : List Char) : Option TsMatch :=
  let ms := l.takeWhile isDigitC
  let r1 := l.dropWhile isDigitC
  if ms.length = 0 || 2 < ms.length then none else
  match r1 with
  | '/' :: r2 =>
    let ds := r2.takeWhile isDigitC
    let r3 := r2.dropWhile isDigitC
    if ds.length = 0 || 2 < ds.length then none else
    match r3 with
    | '/' :: r4 =>
      let ys := r4.takeWhile isDigitC
      let r5 := r4.dropWhile isDigitC
      if ¬ ys.length = 4 then none else
      let ws := r5.takeWhile isJsWS
      let r6 := r5.dropWhile isJsWS
      if ws.length = 0 then none else
      let hs := r6.takeWhile isDigitC
      let r7 := r6.dropWhile isDigitC
      if hs.length = 0 || 2 < hs.length then none else
      match r7 with
      | ':' :: a :: b :: r8 =>
        if isDigitC a && isDigitC b && r8.all (fun c => ¬ isLineSep c) then
          some ⟨ms, ds, ys, hs, [a, b], r8⟩
        else none
      | _ => none
    | _ => none
  | _ => none

/-- The meridiem adjustment shared by both resolvers: `PM` adds 12 below
12, then `AM` resets 12 to 0, testing substring containment on the
trimmed upper-cased trailing text. -/
def meridiemHour (hourS : List Char) (rest : List Char) : Nat :=
  let su := upperC (trimC rest)
  let h := digitsToNat hourS
  let h := if hasSubC "PM".data su && h < 12 then h + 12 else h
  if hasSubC "AM".data su && h = 12 then 0 else h

/-- The fixed DST rule of `fetch-snapshot.mjs`: on/after March 8 the
offset is `-07:00`, before it `-08:00`. -/
def dstOffset (m d : Nat) : String :=
  if 3 < m || (m = 3 && 8 ≤ d) then "-07:00" else "-08:00"

/-- `parseLastUpdated` of `src/scripts/fetch-snapshot.mjs`: strip quotes,
trim, match the pattern, apply the meridiem rule, then print the fields
zero-padded with the fixed-rule offset appended.  The year is printed as
matched; the other fields are re-printed from their numeric values. -/
def fetchParseLastUpdated (raw : String) : Option String :=
  match matchTS (trimC (noQuotes raw.data)) with
  | none => none
  | some t =>
    let h := meridiemHour t.hourS t.rest
    let mv := digitsToNat t.monthS
    let dv := digitsToNat t.dayS
    some ⟨t.yearS ++ '-' :: pad2 (natChars mv) ++ '-' :: pad2 (natChars dv) ++
      'T' :: pad2 (natChars h) ++ ':' :: pad2 (natChars (digitsToNat t.minS)) ++
      ':' :: '0' :: '0' :: (dstOffset mv dv).data⟩

/-! Calendar arithmetic for the upload resolver, which goes through
`new Date(year, month - 1, day, h, minute).toISOString()`: days are
counted from 1970-01-01 in the proleptic Gregorian calendar. -/

/-- Day number of a civil date (civil-from-days inverse below); the month
is already normalised to `1..12`. -/
def daysFromCivil (y : Int) (m : Nat) (d : Int) : Int :=
  let y := y - (if m ≤ 2 then 1 else 0)
  let era := y.fdiv 400
  let yoe := y - era * 400
  let mp : Int := if 2 < m then (m : Int) - 3 else (m : Int) + 9
  let doy := (153 * mp + 2).fdiv 5 + d - 1
  let doe := yoe * 365 + yoe.fdiv 4 - yoe.fdiv 100 + doy
  era * 146097 + doe - 719468

/-- Civil date of a day number. -/
def civilFromDays (z : Int) : Int × Nat × Nat :=
  let z := z + 719468
  let era := z.fdiv 146097
  let doe := z - era * 146097
  let yoe := (doe - doe.fdiv 1461 + doe.fdiv 36524 - doe.fdiv 146096).fdiv 365
  let y := yoe + era * 400
  let doy := doe - (365 * yoe + yoe.fdiv 4 - yoe.fdiv 100)
  let mp := (5 * doy + 2).fdiv 153
  let d := doy - (153 * mp + 2).fdiv 5 + 1
  let m : Int := if mp < 10 then mp + 3 else mp - 9
  ((if m ≤ 2 then y + 1 else y), m.toNat, d.toNat)

/-- Zero-pad to four digits (`Date.prototype.toISOString` year field for
years `0..9999`; larger years print as `+` and six digits). -/
def padYear (y : Int) : List Char :=
  if 0 ≤ y && y ≤ 9999 then
    let s := natChars y.toNat
    List.replicate (4 - s.length) '0' ++ s
  else
    let s := natChars y.toNat
    '+' :: List.replicate (6 - s.length) '0' ++ s

/-- `Date.prototype.toISOString` at whole-minute instants:
`YYYY-MM-DDTHH:MM:00.000Z` for an epoch minute count. -/
def isoOfMinutes (t : Int) : String :=
  let days := t.fdiv 1440
  let mins := (t.emod 1440).toNat
  let c := civilFromDays days
  ⟨padYear c.1 ++ '-' :: pad2 (natChars c.2.1) ++ '-' :: pad2 (natChars c.2.2) ++
    'T' :: pad2 (natChars (mins / 60)) ++ ':' :: pad2 (natChars (mins % 60)) ++
    ':' :: '0' :: '0' :: '.' :: '0' :: '0' :: '0' :: ['Z']⟩

/-- `parseLastUpdated` of `src/app/api/upload/route.ts`: same match and
meridiem rule, but the instant is built by `new Date(...)` in the
server's local time zone and printed by `toISOString()` as UTC.  The
server zone is modelled by `tz`, the zone's UTC offset in minutes as a
function of the local wall-clock minute count (`fun _ => 0` is a UTC
server); `new Date` maps years `0..99` to `1900..1999` and normalises
field overflow arithmetically. -/
def routeParseLastUpdated (tz : Int → Int) (raw : String) : Option String :=
  match matchTS (trimC (noQuotes raw.data)) with
  | none => none
  | some t =>
    let h := meridiemHour t.hourS t.rest
    let y := digitsToNat t.yearS
    let y : Int := if y ≤ 99 then 1900 + (y : Int) else (y : Int)
    let m0 : Int := (digitsToNat t.monthS : Int) - 1
    let yAdj := y + m0.fdiv 12
    let mNorm := (m0.emod 12).toNat + 1
    let days := daysFromCivil yAdj mNorm 1 + ((digitsToNat t.dayS : Int) - 1)
    let localMin := days * 1440 + (h : Int) * 60 + (digitsToNat t.minS : Int)
    some (isoOfMinutes (localMin - tz localMin))

/-- Seconds since the epoch denoted by an ISO-8601 timestamp of the shapes
this system writes (`...SS±HH:MM`, `...SSZ`, `...SS.mmmZ`); the
chronological order the aggregation spec speaks about. -/
def isoToSecs (s : String) : Option Int :=
  let l := s.data
  let ys := l.takeWhile isDigitC
  let r := l.dropWhile isDigitC
  if ¬ ys.length = 4 then none else
  match r with
  | '-' :: m1 :: m2 :: '-' :: d1 :: d2 :: 'T' :: h1 :: h2 :: ':' :: i1 :: i2 ::
      ':' :: s1 :: s2 :: rest =>
    if ([m1, m2, d1, d2, h1, h2, i1, i2, s1, s2].all isDigitC) then
      let base := daysFromCivil (digitsToNat ys) (digitsToNat [m1, m2]) (digitsToNat [d1, d2]) * 86400 +
        (digitsToNat [h1, h2] : Int) * 3600 + (digitsToNat [i1, i2] : Int) * 60 +
        (digitsToNat [s1, s2] : Int)
      let withOffset : List Char → Option Int := fun off =>
        match off with
        | ['Z'] => some base
        | sgn :: o1 :: o2 :: ':' :: o3 :: o4 :: [] =>
          if ([o1, o2, o3, o4].all isDigitC) then
            let mins : Int := (digitsToNat [o1, o2] : Int) * 60 + (digitsToNat [o3, o4] : Int)
            if sgn = '+' then some (base - mins * 60)
            else if sgn = '-' then some (base + mins * 60)
            else none
          else none
        | _ => none
      match rest with
      | '.' :: f1 :: f2 :: f3 :: off =>
        if ([f1, f2, f3].all isDigitC) then withOffset off else none
      | off => withOffset off
    else none
  | _ => none

/-! ## parseCSV (identical in both modules up to the resolver it calls) -/

/-- JavaScript falsiness of the `lastUpdated` variable (string or null). -/
def jsFalsyS (o : Option String) : Bool :=
  match o with
  | none => true
  | some s => s.data = []

/-- The update of the `lastUpdated` loop variable on one non-skipped
line: `if (!lastUpdated && updatedIdx !== -1 && cells[updatedIdx])
lastUpdated = parseLastUpdated(cells[updatedIdx])`. -/
def luNext (plu : String → Option String) (ui : Option Nat)
    (cur : Option String) (cells : List (List Char)) : Option String :=
  match ui with
  | none => cur
  | some u =>
    if jsFalsyS cur && ¬ cells.getD u [] = [] then
      plu ⟨cells.getD u []⟩
    else cur

/-- One iteration of the data-line loop: skip on blank building, else
possibly capture `lastUpdated` from the updated-at cell and push the row. -/
def lineStep (plu : String → Option String) (ui : Option Nat) (bi : Nat)
    (ri gi : Option Nat) (bei : Nat)
    (st : Option String × List Row) (line : List Char) :
    Option String × List Row :=
  match buildRow bi ri gi bei (splitCells line) with
  | none => st
  | some r => (luNext plu ui st.1 (splitCells line), st.2 ++ [r])

/-- The whole data-line loop. -/
def parseLoop (plu : String → Option String) (ui : Option Nat) (bi : Nat)
    (ri gi : Option Nat) (bei : Nat) (dataLines : List (List Char)) :
    Option String × List Row :=
  dataLines.foldl (lineStep plu ui bi ri gi bei) (none, [])

/-- `text.trim().split("\n")`, the line split both `parseCSV`
implementations start from. -/
def linesOf (text : String) : List (List Char) :=
  splitOnC '\n' (trimC text.data)

/-- `lines[0].split(",").map(h => h.trim().toLowerCase().replace(/"/g, ""))`,
the normalised header cells. -/
def headersOf (text : String) : List (List Char) :=
  (splitOnC ',' ((linesOf text).headD [])).map normHeader

/-- `parseCSV`, parameterised by the module's `parseLastUpdated`:
trim, split into lines, bail out below 2 lines, resolve the five roles
from the naive-split normalised headers, bail out if building or bed
spaces is unresolved, then run the data-line loop. -/
def parseCSVwith (plu : String → Option String) (text : String) :
    List Row × Option String :=
  if (linesOf text).length < 2 then ([], none)
  else
    match findCol (headersOf text) buildingKws, findCol (headersOf text) bedKws with
    | some bi, some bei =>
      ((parseLoop plu (findCol (headersOf text) updatedKws) bi
          (findCol (headersOf text) roomTypeKws) (findCol (headersOf text) genderKws)
          bei ((linesOf text).drop 1)).2,
       (parseLoop plu (findCol (headersOf text) updatedKws) bi
          (findCol (headersOf text) roomTypeKws) (findCol (headersOf text) genderKws)
          bei ((linesOf text).drop 1)).1)
    | _, _ => ([], none)

/-- `parseCSV` of `fetch-snapshot.mjs`. -/
def parseCSVfetch (text : String) : List Row × Option String :=
  parseCSVwith fetchParseLastUpdated text

/-- `parseCSV` of `upload/route.ts` on a server whose zone is `tz`. -/
def parseCSVupload (tz : Int → Int) (text : String) : List Row × Option String :=
  parseCSVwith (routeParseLastUpdated tz) text

/-- The row part of the parse at the structured level: raw header cells
and already-split data cells.  `parseCSVwith` factors through this. -/
def rowsOfCells (hsRaw : List (List Char)) (cellRows : List (List (List Char))) :
    List Row :=
  match findCol (hsRaw.map normHeader) buildingKws,
      findCol (hsRaw.map normHeader) bedKws with
  | some bi, some bei =>
    cellRows.filterMap (buildRow bi (findCol (hsRaw.map normHeader) roomTypeKws)
      (findCol (hsRaw.map normHeader) genderKws) bei)
  | _, _ => []

/-- What one data line contributes to the captured timestamp under the
specification reading: a successful parse of a non-empty updated-at cell
on a line whose building cell is non-blank, `none` otherwise. -/
def tsProbe (plu : String → Option String) (ui : Option Nat) (bi : Nat)
    (line : List Char) : Option String :=
  let cells := splitCells line
  match ui with
  | none => none
  | some u =>
    if ¬ cleanCell cells bi = [] && ¬ cells.getD u [] = [] then
      plu ⟨cells.getD u []⟩
    else none

def firstParsedTimestamp (plu : String → Option String) (ui : Option Nat)
    (bi : Nat) (dataLines : List (List Char)) : Option String :=
  dataLines.findSome? (tsProbe plu ui bi)

/-! ## Snapshot store and the two ingestion write paths -/

structure Snapshot where
  timestamp : String
  rows : List Row
  deriving DecidableEq, Repr

/-- The persisted `housing.json` document. -/
structure History where
  snapshots : List Snapshot
  lastUpdated : Option String
  deriving DecidableEq, Repr

/-- JavaScript `csvTimestamp || fallback` on a nullable string. -/
def jsOrS (o : Option String) (fallback : String) : String :=
  match o with
  | none => fallback
  | some s => if s.data = [] then fallback else s

inductive UploadResult where
  /-- The 400 response `Could not parse any rows...`. -/
  | parseError
  /-- The success response with `rowsImported` and `totalSnapshots`. -/
  | ok (rowsImported totalSnapshots : Nat)
  deriving DecidableEq, Repr

/-- The store transition of `POST` in `upload/route.ts` (after
authentication, which is outside the core): parse; on zero rows answer
400 and leave the document alone; otherwise push a snapshot at
`csvTimestamp || new Date().toISOString()` unconditionally — the upload
path has no duplicate-timestamp check. -/
def uploadIngest (tz : Int → Int) (st : History) (text : String)
    (now : String) : UploadResult × History :=
  let parsed := parseCSVupload tz text
  if parsed.1.length = 0 then (.parseError, st)
  else
    let t := jsOrS parsed.2 now
    let st' : History := ⟨st.snapshots ++ [⟨t, parsed.1⟩], some t⟩
    (.ok parsed.1.length st'.snapshots.length, st')

inductive FetchResult where
  /-- `No rows parsed from CSV` followed by `process.exit(1)`. -/
  | noRows
  /-- `Snapshot ... already exists. Skipping.` followed by `exit(0)`. -/
  | skipped
  /-- `Saved snapshot.` -/
  | saved
  deriving DecidableEq, Repr

/-- The store transition of `main` in `fetch-snapshot.mjs`: parse; bail
on zero rows; skip without writing when a snapshot with the exact same
timestamp string already exists; otherwise append. -/
def fetchIngest (st : History) (text : String) (now : String) :
    FetchResult × History :=
  let parsed := parseCSVfetch text
  if parsed.1.length = 0 then (.noRows, st)
  else
    let t := jsOrS parsed.2 now
    if st.snapshots.any (fun s => s.timestamp = t) then (.skipped, st)
    else (.saved, ⟨st.snapshots ++ [⟨t, parsed.1⟩], some t⟩)

/-! ## Aggregation engine (the `Home` component of `page.tsx`) -/

/-- `data.snapshots.length ? data.snapshots[data.snapshots.length - 1].rows : []`. -/
def latestRows (snaps : List Snapshot) : List Row :=
  if snaps.length = 0 then []
  else (snaps.getD (snaps.length - 1) ⟨"", []⟩).rows

/-- `data.snapshots.length > 1 ? data.snapshots[data.snapshots.length - 2].rows : null`. -/
def prevRows (snaps : List Snapshot) : Option (List Row) :=
  if 1 < snaps.length then some (snaps.getD (snaps.length - 2) ⟨"", []⟩).rows
  else none

/-- The group key `JSON.stringify({building, roomType})`, modelled by the
pair itself: JSON string escaping makes the encoding injective, so key
equality coincides with pair equality. -/
def keyOf (r : Row) : String × String :=
  (r.building, r.roomType)

/-- The filter pipeline applied identically to `latest` (for `table`) and
`prev` (for `prevTotals`): gender, building, room type, then the
case-insensitive free-text search over building and room type. -/
def filterRows (gender bld rt q : String) (rows : List Row) : List Row :=
  let f := if gender = "All" then rows else rows.filter (fun r => r.gender = gender)
  let f := if bld = "All" then f else f.filter (fun r => r.building = bld)
  let f := if rt = "All" then f else f.filter (fun r => r.roomType = rt)
  if q.data = [] then f
  else
    let lq := lowerC q.data
    f.filter (fun r =>
      hasSubC lq (lowerC r.building.data) || hasSubC lq (lowerC r.roomType.data))

structure GroupedRow where
  key : String × String
  building : String
  roomType : String
  totalBeds : Int
  byGender : List (String × Int)
  change : Option Int
  deriving DecidableEq, Repr

/-- `byGender[r.gender] = (byGender[r.gender] || 0) + r.bedSpaces` on the
insertion-ordered record. -/
def bumpGender (g : String) (n : Int) : List (String × Int) → List (String × Int)
  | [] => [(g, n)]
  | (g', v) :: t => if g' = g then (g', v + n) :: t else (g', v) :: bumpGender g n t

/-- The fresh group created on first sight of a key
(`{key, building, roomType, totalBeds: 0, byGender: {}, change: null}`
followed by the immediate accumulation of the current row). -/
def freshGroup (r : Row) : GroupedRow :=
  { key := keyOf r, building := r.building, roomType := r.roomType,
    totalBeds := r.bedSpaces, byGender := bumpGender r.gender r.bedSpaces [],
    change := none }

/-- The accumulation applied to an existing group
(`g[k].totalBeds += r.bedSpaces; g[k].byGender[r.gender] += r.bedSpaces`). -/
def accGroup (g : GroupedRow) (r : Row) : GroupedRow :=
  { g with totalBeds := g.totalBeds + r.bedSpaces,
           byGender := bumpGender r.gender r.bedSpaces g.byGender }

/-- One iteration of the grouping loop of `table`: create the group on
first sight (insertion order), then accumulate `totalBeds` and
`byGender`. -/
def bumpGroup (r : Row) : List GroupedRow → List GroupedRow
  | [] => [freshGroup r]
  | g :: t => if g.key = keyOf r then accGroup g r :: t else g :: bumpGroup r t

/-- The grouping pass over the filtered latest rows (`Object.values`
order is insertion order for these non-index keys). -/
def groupRows (rows : List Row) : List GroupedRow :=
  rows.foldl (fun acc r => bumpGroup r acc) []

/-- One iteration of the `prevTotals` loop: `g[k] = (g[k] || 0) + r.bedSpaces`. -/
def bumpTotal (k : String × String) (n : Int) :
    List ((String × String) × Int) → List ((String × String) × Int)
  | [] => [(k, n)]
  | (k', v) :: t => if k' = k then (k', v + n) :: t else (k', v) :: bumpTotal k n t

/-- The `prevTotals` record built from the identically-filtered previous
snapshot rows. -/
def totalsMap (rows : List Row) : List ((String × String) × Int) :=
  rows.foldl (fun acc r => bumpTotal (keyOf r) r.bedSpaces acc) []

/-- Record membership / lookup (`row.key in prevTotals`, `prevTotals[row.key]`). -/
def lookupTotal (m : List ((String × String) × Int)) (k : String × String) :
    Option Int :=
  match m with
  | [] => none
  | (k', v) :: t => if k' = k then some v else lookupTotal t k

/-- The change pass: `if (prevTotals && row.key in prevTotals)
row.change = row.totalBeds - prevTotals[row.key]`. -/
def applyChange (pt : Option (List ((String × String) × Int)))
    (g : GroupedRow) : GroupedRow :=
  match pt with
  | none => g
  | some m =>
    match lookupTotal m g.key with
    | some v => { g with change := some (g.totalBeds - v) }
    | none => g

inductive SortField where
  | building
  | roomType
  | bedSpaces
  | change
  deriving DecidableEq, Repr

/-- The comparator passed to `arr.sort`, with the locale-dependent
`localeCompare` abstracted as `slc`; `change` sorts its `null` as 0. -/
def tableCmp (slc : String → String → Int) (sf : SortField) (asc : Bool)
    (a b : GroupedRow) : Int :=
  match sf with
  | .bedSpaces => if asc then a.totalBeds - b.totalBeds else b.totalBeds - a.totalBeds
  | .change =>
    let ac := a.change.getD 0
    let bc := b.change.getD 0
    if asc then ac - bc else bc - ac
  | .building => if asc then slc a.building b.building else slc b.building a.building
  | .roomType => if asc then slc a.roomType b.roomType else slc b.roomType a.roomType

/-- Stable insertion of one element into a sorted prefix: an element
stays before `x` whenever the comparator does not order it after `x`
(the ECMAScript stable-sort contract for a consistent comparator). -/
def insertCmp (le : GroupedRow → GroupedRow → Bool) (x : GroupedRow) :
    List GroupedRow → List GroupedRow
  | [] => [x]
  | y :: ys => if le y x then y :: insertCmp le x ys else x :: y :: ys

/-- `arr.sort(cmp)` as a stable sort. -/
def sortTable (le : GroupedRow → GroupedRow → Bool) (l : List GroupedRow) :
    List GroupedRow :=
  l.foldl (fun acc x => insertCmp le x acc) []

/-- The `table` memo: filter the latest rows, group them, attach changes
against the identically-filtered previous totals, sort. -/
def computeTable (slc : String → String → Int) (latest : List Row)
    (prev : Option (List Row)) (gender bld rt q : String)
    (sf : SortField) (asc : Bool) : List GroupedRow :=
  let f := filterRows gender bld rt q latest
  let grouped := groupRows f
  let pt := prev.map (fun p => totalsMap (filterRows gender bld rt q p))
  let arr := grouped.map (applyChange pt)
  sortTable (fun a b => tableCmp slc sf asc a b ≤ 0) arr

/-- The table as a function of the loaded history. -/
def tableOf (slc : String → String → Int) (snaps : List Snapshot)
    (gender bld rt q : String) (sf : SortField) (asc : Bool) : List GroupedRow :=
  computeTable slc (latestRows snaps) (prevRows snaps) gender bld rt q sf asc

/-- Sum of `bedSpaces` over the rows with a given group key. -/
def sumKey (rows : List Row) (k : String × String) : Int :=
  ((rows.filter (fun r => keyOf r = k)).map Row.bedSpaces).sum

/-- First grouped entry with a given key (the record access `g[k]`). -/
def lookupG : List GroupedRow → (String × String) → Option GroupedRow
  | [], _ => none
  | g :: t, k => if g.key = k then some g else lookupG t k


/-- A column permutation given as the list of source indices, applied to
header cells and to the cells of each data row alike. -/
def applyPerm (p : List Nat) (l : List (List Char)) : List (List Char) :=
  p.map (fun i => l.getD i [])

/-- Number of data lines whose building cell is non-blank after trimming
(the spec's non-blank data lines), for a resolved building column `bi`. -/
def countNonBlank (bi : Nat) (text : String) : Nat :=
  ((splitOnC '\n' (trimC text.data)).drop 1).countP
    (fun l => ¬ cleanCell (splitCells l) bi = [])

/-- The keywords of the four roles that determine parsed rows. -/
def rowKws : List (List Char) :=
  buildingKws ++ roomTypeKws ++ genderKws ++ bedKws

/-! ## Helper lemmas -/

theorem dropWhile_head_false {p : Char → Bool} {l t : List Char} {a : Char}
    (h : l.dropWhile p = a :: t) : p a = false := by
  induction l with
  | nil => simp at h
  | cons b bs ih =>
    by_cases hb : p b
    · simp [List.dropWhile_cons, hb] at h
      exact ih h
    · simp [List.dropWhile_cons, hb] at h
      rw [← h.1]
      simpa using hb

theorem dropWhile_idem (p : Char → Bool) (l : List Char) :
    (l.dropWhile p).dropWhile p = l.dropWhile p := by
  cases h : l.dropWhile p with
  | nil => simp
  | cons a t =>
    have := dropWhile_head_false h
    simp [List.dropWhile_cons, this]

theorem dropTrailing_isPre (p : Char → Bool) (l : List Char) :
    (l.reverse.dropWhile p).reverse <+: l := by
  have h := @List.dropWhile_suffix _ l.reverse p
  have := (@List.reverse_prefix _ (l.reverse.dropWhile p) l.reverse).2 h
  simpa using this

theorem dropWhile_eq_self_of_isPre {p : Char → Bool} {y z : List Char}
    (hy : y.dropWhile p = y) (hz : z <+: y) : z.dropWhile p = z := by
  cases z with
  | nil => simp
  | cons a t =>
    obtain ⟨r, hr⟩ := hz
    have ha : p a = false := by
      by_contra hp
      have hpa : p a = true := by
        cases hpp : p a
        · exact absurd hpp hp
        · rfl
      rw [← hr] at hy
      simp [List.dropWhile_cons, hpa] at hy
      have hlen := congrArg List.length hy
      have := (@List.dropWhile_suffix _ (t ++ r) p).length_le
      simp at hlen this
      omega
    simp [List.dropWhile_cons, ha]

theorem trimC_idem (l : List Char) : trimC (trimC l) = trimC l := by
  unfold trimC
  set y := l.dropWhile isJsWS with hy
  have hyy : y.dropWhile isJsWS = y := dropWhile_idem isJsWS l
  set z := (y.reverse.dropWhile isJsWS).reverse with hz
  have hzy : z <+: y := dropTrailing_isPre isJsWS y
  have h1 : z.dropWhile isJsWS = z := dropWhile_eq_self_of_isPre hyy hzy
  rw [h1]
  have h2 : z.reverse.dropWhile isJsWS = z.reverse := by
    rw [hz, List.reverse_reverse]
    exact dropWhile_idem isJsWS y.reverse
  rw [h2, hz, List.reverse_reverse]

theorem parseLoop_rows_aux (plu : String → Option String) (ui : Option Nat)
    (bi : Nat) (ri gi : Option Nat) (bei : Nat) (ls : List (List Char))
    (st : Option String × List Row) :
    (ls.foldl (lineStep plu ui bi ri gi bei) st).2 =
      st.2 ++ ls.filterMap (fun l => buildRow bi ri gi bei (splitCells l)) := by
  induction ls generalizing st with
  | nil => simp
  | cons l ls ih =>
    simp only [List.foldl_cons, List.filterMap_cons]
    cases h : buildRow bi ri gi bei (splitCells l) with
    | none =>
      rw [ih]
      simp [lineStep, h]
    | some r =>
      rw [ih]
      simp [lineStep, h]

/-- The rows a `parseCSV` run produces are exactly the `buildRow` images
of the split data lines, independent of the timestamp state. -/
theorem parseLoop_rows (plu : String → Option String) (ui : Option Nat)
    (bi : Nat) (ri gi : Option Nat) (bei : Nat) (ls : List (List Char)) :
    (parseLoop plu ui bi ri gi bei ls).2 =
      ls.filterMap (fun l => buildRow bi ri gi bei (splitCells l)) := by
  unfold parseLoop
  rw [parseLoop_rows_aux]
  simp

theorem buildRow_none_iff (bi : Nat) (ri gi : Option Nat) (bei : Nat)
    (cells : List (List Char)) :
    buildRow bi ri gi bei cells = none ↔ cleanCell cells bi = [] := by
  unfold buildRow
  by_cases h : cleanCell cells bi = [] <;> simp [h]

theorem parseLoop_lu_absorb (plu : String → Option String) (ui : Option Nat)
    (bi : Nat) (ri gi : Option Nat) (bei : Nat) (ls : List (List Char))
    (st : Option String × List Row) (h : jsFalsyS st.1 = false) :
    (ls.foldl (lineStep plu ui bi ri gi bei) st).1 = st.1 := by
  induction ls generalizing st with
  | nil => rfl
  | cons l ls ih =>
    simp only [List.foldl_cons]
    have hstep : (lineStep plu ui bi ri gi bei st l).1 = st.1 := by
      unfold lineStep
      cases hb : buildRow bi ri gi bei (splitCells l) with
      | none => rfl
      | some r =>
        cases ui with
        | none => rfl
        | some u => simp [luNext, h]
    have h2 : jsFalsyS (lineStep plu ui bi ri gi bei st l).1 = false := by
      rw [hstep]; exact h
    rw [ih _ h2, hstep]

/-- With a resolver that never returns the empty string, the timestamp
the loop retains is the first successful parse among the non-blank rows'
non-empty updated-at cells. -/
theorem parseLoop_lu (plu : String → Option String)
    (hplu : ∀ r v, plu r = some v → ¬ v.data = [])
    (ui : Option Nat) (bi : Nat) (ri gi : Option Nat) (bei : Nat)
    (ls : List (List Char)) (rs : List Row) :
    (ls.foldl (lineStep plu ui bi ri gi bei) (none, rs)).1 =
      firstParsedTimestamp plu ui bi ls := by
  induction ls generalizing rs with
  | nil => rfl
  | cons l ls ih =>
    simp only [firstParsedTimestamp] at ih ⊢
    simp only [List.foldl_cons, List.findSome?_cons]
    cases hb : buildRow bi ri gi bei (splitCells l) with
    | none =>
      have hblank : cleanCell (splitCells l) bi = [] :=
        (buildRow_none_iff bi ri gi bei (splitCells l)).1 hb
      have hls : lineStep plu ui bi ri gi bei (none, rs) l = (none, rs) := by
        unfold lineStep; rw [hb]
      have hpr : tsProbe plu ui bi l = none := by
        cases ui with
        | none => rfl
        | some u => simp [tsProbe, hblank]
      rw [hls]
      simp only [hpr]
      exact ih rs
    | some r =>
      have hls : lineStep plu ui bi ri gi bei (none, rs) l =
          (luNext plu ui none (splitCells l), rs ++ [r]) := by
        unfold lineStep; rw [hb]
      have hbne : ¬ cleanCell (splitCells l) bi = [] := by
        intro hc
        rw [(buildRow_none_iff bi ri gi bei (splitCells l)).2 hc] at hb
        exact Option.noConfusion hb
      rw [hls]
      cases ui with
      | none =>
        have hpr : tsProbe plu none bi l = none := rfl
        have hlu : luNext plu none (none : Option String) (splitCells l) = none := rfl
        rw [hlu]
        simp only [hpr]
        exact ih (rs ++ [r])
      | some u =>
        by_cases hcell : (splitCells l)[u]?.getD [] = []
        · have hlu : luNext plu (some u) none (splitCells l) = none := by
            simp [luNext, jsFalsyS, hcell]
          have hpr : tsProbe plu (some u) bi l = none := by
            simp [tsProbe, hcell]
          rw [hlu]
          simp only [hpr]
          exact ih (rs ++ [r])
        · have hlu : luNext plu (some u) none (splitCells l) =
              plu ⟨(splitCells l)[u]?.getD []⟩ := by
            simp [luNext, jsFalsyS, hcell]
          have hpr : tsProbe plu (some u) bi l = plu ⟨(splitCells l)[u]?.getD []⟩ := by
            simp [tsProbe, hbne, hcell]
          rw [hlu]
          cases hp : plu ⟨(splitCells l)[u]?.getD []⟩ with
          | none =>
            simp only [hpr, hp]
            exact ih (rs ++ [r])
          | some v =>
            have habs := parseLoop_lu_absorb plu (some u) bi ri gi bei ls
              (some v, rs ++ [r]) (by simp [jsFalsyS, hplu _ _ hp])
            rw [habs]
            simp only [hpr, hp]

/-- Characterisation of a successful `parseCSV` run: the rows are the
`buildRow` images of the data lines and the captured timestamp is the
first successful parse, provided the resolver never returns `""`. -/
theorem parseCSVwith_spec (plu : String → Option String)
    (hplu : ∀ r v, plu r = some v → ¬ v.data = []) (text : String)
    (bi bei : Nat) (hlen : 2 ≤ (linesOf text).length)
    (hbi : findCol (headersOf text) buildingKws = some bi)
    (hbei : findCol (headersOf text) bedKws = some bei) :
    parseCSVwith plu text =
      (((linesOf text).drop 1).filterMap (fun l =>
         buildRow bi (findCol (headersOf text) roomTypeKws)
           (findCol (headersOf text) genderKws) bei (splitCells l)),
       firstParsedTimestamp plu (findCol (headersOf text) updatedKws) bi
         ((linesOf text).drop 1)) := by
  unfold parseCSVwith
  rw [if_neg (by omega), hbi, hbei]
  dsimp only
  unfold parseLoop
  rw [parseLoop_rows_aux, parseLoop_lu plu hplu]
  simp

/-- A structurally failing `parseCSV` run: fewer than two lines or an
unresolved building or bed-count column give the empty result. -/
theorem parseCSVwith_fail (plu : String → Option String) (text : String)
    (h : (linesOf text).length < 2 ∨
         findCol (headersOf text) buildingKws = none ∨
         findCol (headersOf text) bedKws = none) :
    parseCSVwith plu text = ([], none) := by
  unfold parseCSVwith
  by_cases hlen : (linesOf text).length < 2
  · rw [if_pos hlen]
  · rw [if_neg hlen]
    rcases h with h | h | h
    · exact absurd h hlen
    · rw [h]
    · rw [h]
      cases findCol (headersOf text) buildingKws <;> rfl

/-- The rows a `parseCSV` run produces do not depend on the timestamp
resolver at all. -/
theorem parseCSVwith_rows_indep (p1 p2 : String → Option String)
    (text : String) :
    (parseCSVwith p1 text).1 = (parseCSVwith p2 text).1 := by
  unfold parseCSVwith
  by_cases hlen : (linesOf text).length < 2
  · rw [if_pos hlen, if_pos hlen]
  · rw [if_neg hlen, if_neg hlen]
    cases hbi : findCol (headersOf text) buildingKws with
    | none => rfl
    | some bi =>
      cases hbei : findCol (headersOf text) bedKws with
      | none => rfl
      | some bei =>
        dsimp only
        unfold parseLoop
        rw [parseLoop_rows_aux, parseLoop_rows_aux]

/-- `fetchParseLastUpdated` never returns the empty string. -/
theorem fetchPLU_ne_empty (r v : String)
    (h : fetchParseLastUpdated r = some v) : ¬ v.data = [] := by
  unfold fetchParseLastUpdated at h
  cases hm : matchTS (trimC (noQuotes r.data)) with
  | none => rw [hm] at h; exact Option.noConfusion h
  | some t =>
    rw [hm] at h
    simp only [Option.some.injEq] at h
    rw [← h]
    simp [List.append_eq_nil]

/-- `routeParseLastUpdated` never returns the empty string. -/
theorem routePLU_ne_empty (tz : Int → Int) (r v : String)
    (h : routeParseLastUpdated tz r = some v) : ¬ v.data = [] := by
  unfold routeParseLastUpdated at h
  cases hm : matchTS (trimC (noQuotes r.data)) with
  | none => rw [hm] at h; exact Option.noConfusion h
  | some t =>
    rw [hm] at h
    simp only [Option.some.injEq] at h
    rw [← h]
    simp [isoOfMinutes, List.append_eq_nil]

/-- Rows of a successful `parseCSV` run, with no assumption on the
resolver. -/
theorem parseCSVwith_rows_eq (plu : String → Option String) (text : String)
    (bi bei : Nat) (hlen : 2 ≤ (linesOf text).length)
    (hbi : findCol (headersOf text) buildingKws = some bi)
    (hbei : findCol (headersOf text) bedKws = some bei) :
    (parseCSVwith plu text).1 =
      ((linesOf text).drop 1).filterMap (fun l =>
        buildRow bi (findCol (headersOf text) roomTypeKws)
          (findCol (headersOf text) genderKws) bei (splitCells l)) := by
  unfold parseCSVwith
  rw [if_neg (by omega), hbi, hbei]
  dsimp only
  unfold parseLoop
  rw [parseLoop_rows_aux]
  simp

theorem length_filterMap_countP (f : α → Option β) (l : List α) :
    (l.filterMap f).length = l.countP (fun x => (f x).isSome) := by
  induction l with
  | nil => rfl
  | cons a t ih =>
    cases h : f a with
    | none => simp [List.filterMap_cons, List.countP_cons, h, ih]
    | some b => simp [List.filterMap_cons, List.countP_cons, h, ih]

theorem buildRow_building (bi : Nat) (ri gi : Option Nat) (bei : Nat)
    (cells : List (List Char)) (r : Row)
    (h : buildRow bi ri gi bei cells = some r) :
    r.building.data = cleanCell cells bi ∧ ¬ r.building = "" := by
  unfold buildRow at h
  by_cases hc : cleanCell cells bi = []
  · rw [if_pos hc] at h
    exact Option.noConfusion h
  · rw [if_neg hc] at h
    simp only [Option.some.injEq] at h
    subst h
    refine ⟨rfl, fun he => hc ?_⟩
    have := congrArg String.data he
    simpa using this

theorem getD_append_cons (l : List α) (x : α) (rest : List α) (d : α) :
    (l ++ x :: rest).getD l.length d = x := by
  induction l with
  | nil => rfl
  | cons a t ih => simpa using ih

/-! ## C1 -/

/-- C1 (counterexample): the interactive-upload write path performs no
duplicate-timestamp check.  With a store already holding a snapshot at
the ingestion instant and a CSV with no updated-at column, the upload
handler appends a second snapshot with the exact same timestamp instead
of leaving the store unchanged. -/
theorem upload_appends_duplicate_timestamp :
    (uploadIngest (fun _ => 0)
        ⟨[⟨"2026-03-02T17:00:00.000Z",
           [⟨"Hedrick", "Unknown", "All", 5⟩]⟩], some "2026-03-02T17:00:00.000Z"⟩
        "Building,Beds\nHedrick,5" "2026-03-02T17:00:00.000Z").2.snapshots.length = 2 ∧
    (uploadIngest (fun _ => 0)
        ⟨[⟨"2026-03-02T17:00:00.000Z",
           [⟨"Hedrick", "Unknown", "All", 5⟩]⟩], some "2026-03-02T17:00:00.000Z"⟩
        "Building,Beds\nHedrick,5" "2026-03-02T17:00:00.000Z").2.snapshots.map
      Snapshot.timestamp = ["2026-03-02T17:00:00.000Z", "2026-03-02T17:00:00.000Z"] ∧
    (uploadIngest (fun _ => 0)
        ⟨[⟨"2026-03-02T17:00:00.000Z",
           [⟨"Hedrick", "Unknown", "All", 5⟩]⟩], some "2026-03-02T17:00:00.000Z"⟩
        "Building,Beds\nHedrick,5" "2026-03-02T17:00:00.000Z").1 = .ok 1 2 := by
  decide

/-- C1 (amended): only the scheduled-fetch write path is idempotent on
duplicate timestamps: when the parse produces rows and the resolved
snapshot timestamp already occurs in the store, `fetchIngest` reports a
skip and returns the store unchanged in length and content. -/
theorem fetch_duplicate_skip (st : History) (text : String) (now : String)
    (hrows : ¬ (parseCSVfetch text).1.length = 0)
    (hdup : st.snapshots.any
      (fun s => s.timestamp = jsOrS (parseCSVfetch text).2 now) = true) :
    fetchIngest st text now = (.skipped, st) := by
  unfold fetchIngest
  rw [if_neg hrows, if_pos hdup]

/-- C1 witness: a concrete duplicate fetch run is skipped. -/
theorem fetch_duplicate_skip_w :
    fetchIngest
      ⟨[⟨"2026-03-02T17:00:00.000Z", [⟨"Hedrick", "Unknown", "All", 5⟩]⟩],
        some "2026-03-02T17:00:00.000Z"⟩
      "Building,Beds\nHedrick,5" "2026-03-02T17:00:00.000Z" =
      (.skipped,
       ⟨[⟨"2026-03-02T17:00:00.000Z", [⟨"Hedrick", "Unknown", "All", 5⟩]⟩],
        some "2026-03-02T17:00:00.000Z"⟩) :=
  fetch_duplicate_skip _ _ _ (by decide) (by decide)

/-! ## C2 -/

/-- C2 (counterexample): the view selects `latest` by insertion position,
not by timestamp.  With two snapshots stored newest-first, `latest` is
the rows of the chronologically earlier snapshot. -/
theorem latest_ignores_chronology :
    latestRows
      [⟨"2026-03-05T10:00:00-08:00", [⟨"Hedrick", "Unknown", "All", 9⟩]⟩,
       ⟨"2026-03-04T10:00:00-08:00", [⟨"Hedrick", "Unknown", "All", 7⟩]⟩] =
      [⟨"Hedrick", "Unknown", "All", 7⟩] ∧
    ¬ ([⟨"Hedrick", "Unknown", "All", 7⟩] : List Row) =
      [⟨"Hedrick", "Unknown", "All", 9⟩] ∧
    isoToSecs "2026-03-04T10:00:00-08:00" = some 1772647200 ∧
    isoToSecs "2026-03-05T10:00:00-08:00" = some 1772733600 ∧
    (1772647200 : Int) < 1772733600 := by
  decide

/-- C2 (amended): `latest` is the rows of the last snapshot in insertion
order and `previous` the second-to-last, with `previous` absent exactly
when fewer than two snapshots exist; the view performs no re-sort by
timestamp. -/
theorem latest_prev_insertion_order :
    (∀ (snaps : List Snapshot) (s : Snapshot),
       latestRows (snaps ++ [s]) = s.rows) ∧
    (∀ snaps : List Snapshot, prevRows snaps = none ↔ snaps.length < 2) ∧
    (∀ (snaps : List Snapshot) (s s2 : Snapshot),
       prevRows (snaps ++ [s, s2]) = some s.rows) := by
  refine ⟨fun snaps s => ?_, fun snaps => ?_, fun snaps s s2 => ?_⟩
  · unfold latestRows
    rw [if_neg (by simp)]
    have : (snaps ++ [s]).length - 1 = snaps.length := by simp
    rw [this, getD_append_cons]
  · unfold prevRows
    by_cases h : 1 < snaps.length
    · rw [if_pos h]
      constructor
      · intro hc; exact Option.noConfusion hc
      · omega
    · rw [if_neg h]
      constructor
      · intro _; omega
      · intro _; rfl
  · unfold prevRows
    rw [if_pos (by simp)]
    have : (snaps ++ [s, s2]).length - 2 = snaps.length := by simp
    rw [this, getD_append_cons]

/-! ## C3 -/

/-- C3 (counterexample): the two ingestion entry points are not one
shared component: their `parseLastUpdated` implementations drifted.  On
the same input the scheduled fetch resolves a fixed-offset Pacific
timestamp while the interactive upload (on a UTC server) resolves a
different UTC instant, so the resolved snapshot timestamps differ. -/
theorem ingestion_paths_timestamp_drift :
    parseCSVfetch "Building,Beds,Last Updated\nHedrick,5,3/8/2026 12:00 AM" =
      ([⟨"Hedrick", "Unknown", "All", 5⟩], some "2026-03-08T00:00:00-07:00") ∧
    parseCSVupload (fun _ => 0)
        "Building,Beds,Last Updated\nHedrick,5,3/8/2026 12:00 AM" =
      ([⟨"Hedrick", "Unknown", "All", 5⟩], some "2026-03-08T00:00:00.000Z") ∧
    ¬ (some "2026-03-08T00:00:00-07:00" : Option String) =
      some "2026-03-08T00:00:00.000Z" ∧
    isoToSecs "2026-03-08T00:00:00-07:00" = some 1772953200 ∧
    isoToSecs "2026-03-08T00:00:00.000Z" = some 1772928000 ∧
    ¬ (1772953200 : Int) = 1772928000 := by
  decide

/-- C3 (amended): the row-parsing halves of the two entry points do
coincide on every input; only the resolved snapshot timestamps drift
(the upload resolver converts through the server-local `Date` to a UTC
string, the fetch resolver emits a fixed-offset string). -/
theorem ingestion_paths_same_rows (tz : Int → Int) (text : String) :
    (parseCSVupload tz text).1 = (parseCSVfetch text).1 :=
  parseCSVwith_rows_indep (routeParseLastUpdated tz) fetchParseLastUpdated text

/-! ## C4 -/

/-- C4 (counterexample): the upload entry point's timestamp resolver
does not implement the fixed DST rule: on a UTC server,
`"3/8/2026 12:00 AM"` resolves to the UTC string
`2026-03-08T00:00:00.000Z`, which does not carry the offset `-07:00`
(and denotes a different instant than `2026-03-08T00:00:00-07:00`). -/
theorem upload_resolver_no_fixed_offset :
    routeParseLastUpdated (fun _ => 0) "3/8/2026 12:00 AM" =
      some "2026-03-08T00:00:00.000Z" ∧
    (∀ pre : String, ¬ "2026-03-08T00:00:00.000Z" = pre ++ "-07:00") ∧
    ¬ isoToSecs "2026-03-08T00:00:00.000Z" = isoToSecs "2026-03-08T00:00:00-07:00" := by
  refine ⟨by decide, fun pre h => ?_, by decide⟩
  have h2 : ("2026-03-08T00:00:00.000Z".data).reverse.head? =
      ((pre.data ++ "-07:00".data)).reverse.head? := by
    rw [show pre.data ++ "-07:00".data = (pre ++ "-07:00").data from rfl, ← h]
  rw [List.reverse_append] at h2
  rw [show ("-07:00".data).reverse = '0' :: '0' :: ':' :: '7' :: '0' :: ['-'] from rfl] at h2
  rw [show ("2026-03-08T00:00:00.000Z".data).reverse.head? = some 'Z' from rfl] at h2
  simp at h2

/-- C4 (amended): the scheduled-fetch resolver does implement the fixed
rule: every successful parse appends the offset chosen by `dstOffset`,
which is `-08:00` exactly when the date is before March 8 and `-07:00`
otherwise, and the two specification instances resolve as stated. -/
theorem fetch_resolver_dst_rule :
    (∀ m d : Nat,
       (dstOffset m d = "-08:00" ↔ (m < 3 ∨ (m = 3 ∧ d < 8))) ∧
       (dstOffset m d = "-07:00" ↔ ¬ (m < 3 ∨ (m = 3 ∧ d < 8)))) ∧
    (∀ raw s, fetchParseLastUpdated raw = some s →
       ∃ t, matchTS (trimC (noQuotes raw.data)) = some t ∧
         ∃ pre : String,
           s = pre ++ dstOffset (digitsToNat t.monthS) (digitsToNat t.dayS)) ∧
    fetchParseLastUpdated "3/7/2026 11:00 PM" = some "2026-03-07T23:00:00-08:00" ∧
    fetchParseLastUpdated "3/8/2026 12:00 AM" = some "2026-03-08T00:00:00-07:00" := by
  refine ⟨fun m d => ?_, fun raw s h => ?_, by decide, by decide⟩
  · unfold dstOffset
    by_cases hc : (3 < m || (m = 3 && (8 ≤ d : Bool))) = true
    · rw [if_pos hc]
      simp only [Bool.or_eq_true, decide_eq_true_eq, Bool.and_eq_true] at hc
      constructor
      · constructor
        · intro he; exact absurd he (by decide)
        · intro hmd; omega
      · constructor
        · intro _; omega
        · intro _; rfl
    · rw [if_neg hc]
      simp only [Bool.or_eq_true, decide_eq_true_eq, Bool.and_eq_true] at hc
      push_neg at hc
      constructor
      · constructor
        · intro _
          rcases Nat.lt_or_ge m 3 with hm | hm
          · exact Or.inl hm
          · right
            have hm3 : m = 3 := by omega
            refine ⟨hm3, ?_⟩
            have := hc.2 (by simpa using hm3)
            simp at this
            omega
        · intro _; rfl
      · constructor
        · intro he; exact absurd he (by decide)
        · intro hmd
          exfalso
          rcases Nat.lt_or_ge m 3 with hm | hm
          · exact hmd (Or.inl hm)
          · have h3 := hc.1
            have hm3 : m = 3 := by omega
            have := hc.2 (by simpa using hm3)
            simp at this
            exact hmd (Or.inr ⟨hm3, by omega⟩)
  · unfold fetchParseLastUpdated at h
    cases hm : matchTS (trimC (noQuotes raw.data)) with
    | none => rw [hm] at h; exact Option.noConfusion h
    | some t =>
      rw [hm] at h
      simp only [Option.some.injEq] at h
      refine ⟨t, rfl, ⟨⟨t.yearS ++ '-' :: pad2 (natChars (digitsToNat t.monthS)) ++
        '-' :: pad2 (natChars (digitsToNat t.dayS)) ++
        'T' :: pad2 (natChars (meridiemHour t.hourS t.rest)) ++
        ':' :: pad2 (natChars (digitsToNat t.minS)) ++ ':' :: '0' :: '0' :: []⟩, ?_⟩⟩
      rw [← h]
      apply congrArg String.mk
      simp only [List.append_assoc, List.cons_append, List.nil_append]
      rfl

/-- C4 witness: the amended theorem applied at the two specification
instances and at `(m, d) = (3, 7)`. -/
theorem fetch_resolver_dst_rule_w :
    fetchParseLastUpdated "3/7/2026 11:00 PM" = some "2026-03-07T23:00:00-08:00" ∧
    (dstOffset 3 7 = "-08:00" ↔ (3 < 3 ∨ (3 = 3 ∧ 7 < 8))) ∧
    (∃ t, matchTS (trimC (noQuotes ("3/7/2026 11:00 PM" : String).data)) = some t ∧
      ∃ pre : String, "2026-03-07T23:00:00-08:00" =
        pre ++ dstOffset (digitsToNat t.monthS) (digitsToNat t.dayS)) :=
  ⟨fetch_resolver_dst_rule.2.2.1,
   (fetch_resolver_dst_rule.1 3 7).1,
   fetch_resolver_dst_rule.2.1 "3/7/2026 11:00 PM" _ fetch_resolver_dst_rule.2.2.1⟩

/-! ## C6 -/

/-- C6 (confirmed): when the building or bed-count column cannot be
resolved from the headers, or the input has fewer than two lines, the
parse yields zero rows and the upload handler answers with the
structural 400 error, returning the persisted store completely
unchanged — no partial rows or snapshot are written. -/
theorem structural_failure_leaves_store (tz : Int → Int) (st : History)
    (now text : String)
    (h : (linesOf text).length < 2 ∨
         findCol (headersOf text) buildingKws = none ∨
         findCol (headersOf text) bedKws = none) :
    (parseCSVupload tz text).1 = [] ∧
    uploadIngest tz st text now = (.parseError, st) := by
  have hfail : parseCSVwith (routeParseLastUpdated tz) text = ([], none) :=
    parseCSVwith_fail _ text h
  refine ⟨by rw [show parseCSVupload tz text =
    parseCSVwith (routeParseLastUpdated tz) text from rfl, hfail], ?_⟩
  unfold uploadIngest
  rw [show parseCSVupload tz text =
    parseCSVwith (routeParseLastUpdated tz) text from rfl, hfail]
  rfl

/-- C6 witness: a header with neither a building nor a bed keyword is
rejected with the store untouched. -/
theorem structural_failure_leaves_store_w :
    (parseCSVupload (fun _ => 0) "Nothing,Here\nA,B").1 = [] ∧
    uploadIngest (fun _ => 0)
      ⟨[⟨"2026-03-02T17:00:00.000Z", [⟨"Hedrick", "Unknown", "All", 5⟩]⟩],
        some "2026-03-02T17:00:00.000Z"⟩
      "Nothing,Here\nA,B" "2026-03-03T17:00:00.000Z" =
      (.parseError,
       ⟨[⟨"2026-03-02T17:00:00.000Z", [⟨"Hedrick", "Unknown", "All", 5⟩]⟩],
        some "2026-03-02T17:00:00.000Z"⟩) :=
  structural_failure_leaves_store (fun _ => 0) _ _ _ (by decide)

/-! ## C7 -/

/-- C7 (confirmed): with a resolvable building and bed-count column, the
number of parsed rows equals the number of data lines whose building
cell is non-blank after trimming, and every parsed row has a non-blank
building — blank-building lines such as `",Female,10"` are skipped
without failing the parse. -/
theorem rows_length_eq_nonblank (plu : String → Option String) (text : String)
    (bi bei : Nat) (hlen : 2 ≤ (linesOf text).length)
    (hbi : findCol (headersOf text) buildingKws = some bi)
    (hbei : findCol (headersOf text) bedKws = some bei) :
    (parseCSVwith plu text).1.length = countNonBlank bi text ∧
    ∀ r ∈ (parseCSVwith plu text).1, ¬ r.building = "" := by
  rw [parseCSVwith_rows_eq plu text bi bei hlen hbi hbei]
  constructor
  · rw [length_filterMap_countP]
    unfold countNonBlank
    rw [show splitOnC '\n' (trimC text.data) = linesOf text from rfl]
    apply List.countP_congr
    intro l _
    cases hb : buildRow bi (findCol (headersOf text) roomTypeKws)
        (findCol (headersOf text) genderKws) bei (splitCells l) with
    | none =>
      have := (buildRow_none_iff _ _ _ _ _).1 hb
      simp [this]
    | some r =>
      have : ¬ cleanCell (splitCells l) bi = [] := by
        intro hc
        rw [(buildRow_none_iff _ _ _ _ _).2 hc] at hb
        exact Option.noConfusion hb
      simp [this]
  · intro r hr
    rw [List.mem_filterMap] at hr
    obtain ⟨l, _, hb⟩ := hr
    exact (buildRow_building _ _ _ _ _ _ hb).2

/-- C7 witness: the specification scenario — the line `",Female,10"` is
skipped, the other two lines become rows, and the parse does not fail. -/
theorem rows_length_eq_nonblank_w :
    (parseCSVwith fetchParseLastUpdated
        "Building,Gender,Beds\nHedrick,Female,10\n,Female,10\nRieber,Male,5").1.length =
      countNonBlank 0
        "Building,Gender,Beds\nHedrick,Female,10\n,Female,10\nRieber,Male,5" ∧
    (∀ r ∈ (parseCSVwith fetchParseLastUpdated
        "Building,Gender,Beds\nHedrick,Female,10\n,Female,10\nRieber,Male,5").1,
      ¬ r.building = "") ∧
    countNonBlank 0
      "Building,Gender,Beds\nHedrick,Female,10\n,Female,10\nRieber,Male,5" = 2 :=
  ⟨(rows_length_eq_nonblank fetchParseLastUpdated _ 0 2 (by decide) (by decide)
      (by decide)).1,
   (rows_length_eq_nonblank fetchParseLastUpdated _ 0 2 (by decide) (by decide)
      (by decide)).2,
   by decide⟩

/-! ## C8 -/

/-- C8 (counterexample): `parseInt(cell) || 0` preserves negative values,
so a bed-count cell of `-5` produces a `Row` with `bedSpaces = -5 < 0`,
refuting the invariant `bedSpaces ≥ 0`. -/
theorem negative_bedspaces_row :
    parseCSVfetch "Building,Beds\nHedrick,-5" =
      ([⟨"Hedrick", "Unknown", "All", -5⟩], none) ∧
    (-5 : Int) < 0 := by
  decide

/-- C8 (amended): every ingested row arises from `buildRow`, and every
`buildRow` output has a non-empty trim-fixed building, room type
`"Unknown"` when its column is unresolved or its cell blank, gender
`"All"` likewise, and an integer `bedSpaces` equal to
`parseInt(cell) || 0` — so non-numeric or missing bed cells coerce to 0,
but a negative numeric cell stays negative. -/
theorem row_invariants_amended :
    (∀ (plu : String → Option String) (text : String) (r : Row),
       r ∈ (parseCSVwith plu text).1 →
       ∃ bi ri gi bei cells, buildRow bi ri gi bei cells = some r) ∧
    (∀ (bi : Nat) (ri gi : Option Nat) (bei : Nat) (cells : List (List Char))
       (r : Row), buildRow bi ri gi bei cells = some r →
       (¬ r.building = "" ∧ trimC r.building.data = r.building.data) ∧
       (ri = none → r.roomType = "Unknown") ∧
       (∀ i, ri = some i → cleanCell cells i = [] → r.roomType = "Unknown") ∧
       (gi = none → r.gender = "All") ∧
       (∀ i, gi = some i → cleanCell cells i = [] → r.gender = "All") ∧
       r.bedSpaces = jsIntOr0 (noQuotes (cells.getD bei [])) ∧
       (parseIntJS (noQuotes (cells.getD bei [])) = none → r.bedSpaces = 0)) := by
  constructor
  · intro plu text r hr
    unfold parseCSVwith at hr
    by_cases hlen : (linesOf text).length < 2
    · rw [if_pos hlen] at hr
      exact absurd hr (by simp)
    · rw [if_neg hlen] at hr
      cases hbi : findCol (headersOf text) buildingKws with
      | none =>
        rw [hbi] at hr
        cases findCol (headersOf text) bedKws <;> exact absurd hr (by simp_all)
      | some bi =>
        cases hbei : findCol (headersOf text) bedKws with
        | none =>
          rw [hbi, hbei] at hr
          exact absurd hr (by simp)
        | some bei =>
          rw [hbi, hbei] at hr
          dsimp only at hr
          unfold parseLoop at hr
          rw [parseLoop_rows_aux] at hr
          simp only [List.nil_append] at hr
          rw [List.mem_filterMap] at hr
          obtain ⟨l, _, hb⟩ := hr
          exact ⟨bi, _, _, bei, splitCells l, hb⟩
  · intro bi ri gi bei cells r h
    have hb := buildRow_building bi ri gi bei cells r h
    unfold buildRow at h
    by_cases hc : cleanCell cells bi = []
    · rw [if_pos hc] at h
      exact Option.noConfusion h
    · rw [if_neg hc] at h
      simp only [Option.some.injEq] at h
      subst h
      refine ⟨⟨hb.2, ?_⟩, ?_, ?_, ?_, ?_, rfl, ?_⟩
      · rw [hb.1]
        unfold cleanCell
        exact trimC_idem _
      · intro hri; rw [hri]
      · intro i hri hcell
        rw [hri]
        simp only [hcell]
        rfl
      · intro hgi; rw [hgi]
      · intro i hgi hcell
        rw [hgi]
        simp only [hcell]
        rfl
      · intro hn
        unfold jsIntOr0
        rw [hn]
        rfl

/-- C8 witness: the amended invariants at a concrete parse and a
concrete `buildRow` instance with a missing gender column and a
non-numeric bed cell. -/
theorem row_invariants_amended_w :
    (∃ bi ri gi bei cells, buildRow bi ri gi bei cells =
       some ⟨"Hedrick", "Unknown", "All", 5⟩) ∧
    ((¬ ("Hedrick" : String) = "" ∧ trimC "Hedrick".data = "Hedrick".data) ∧
     ((none : Option Nat) = none → ("Unknown" : String) = "Unknown") ∧
     (∀ i, (none : Option Nat) = some i →
        cleanCell [" Hedrick ".data, "abc".data] i = [] →
        ("Unknown" : String) = "Unknown") ∧
     ((none : Option Nat) = none → ("All" : String) = "All") ∧
     (∀ i, (none : Option Nat) = some i →
        cleanCell [" Hedrick ".data, "abc".data] i = [] →
        ("All" : String) = "All") ∧
     (Row.bedSpaces ⟨"Hedrick", "Unknown", "All", 0⟩ =
       jsIntOr0 (noQuotes ([" Hedrick ".data, "abc".data].getD 1 []))) ∧
     (parseIntJS (noQuotes ([" Hedrick ".data, "abc".data].getD 1 [])) = none →
       Row.bedSpaces ⟨"Hedrick", "Unknown", "All", 0⟩ = 0)) :=
  ⟨row_invariants_amended.1 fetchParseLastUpdated "Building,Beds\nHedrick,5"
     ⟨"Hedrick", "Unknown", "All", 5⟩ (by decide),
   row_invariants_amended.2 0 none none 1 [" Hedrick ".data, "abc".data]
     ⟨"Hedrick", "Unknown", "All", 0⟩ (by decide)⟩

/-! ## C10 -/

/-- C10 (confirmed): the captured CSV timestamp of either entry point is
the first successful `parseLastUpdated` result, scanning non-blank-
building data lines in file order and considering only non-empty
updated-at cells — a cell that fails to parse is passed over and later
cells are still tried, while after one success all later cells are
ignored; and the committed snapshot's timestamp is that capture, with
the ingestion wall-clock instant substituted when no cell parses or no
updated-at column resolves. -/
theorem snapshot_timestamp_first_parsed :
    (∀ (tz : Int → Int) (text : String) (bi bei : Nat),
       2 ≤ (linesOf text).length →
       findCol (headersOf text) buildingKws = some bi →
       findCol (headersOf text) bedKws = some bei →
       (parseCSVupload tz text).2 =
         firstParsedTimestamp (routeParseLastUpdated tz)
           (findCol (headersOf text) updatedKws) bi ((linesOf text).drop 1)) ∧
    (∀ (text : String) (bi bei : Nat),
       2 ≤ (linesOf text).length →
       findCol (headersOf text) buildingKws = some bi →
       findCol (headersOf text) bedKws = some bei →
       (parseCSVfetch text).2 =
         firstParsedTimestamp fetchParseLastUpdated
           (findCol (headersOf text) updatedKws) bi ((linesOf text).drop 1)) ∧
    (∀ (tz : Int → Int) (st : History) (now text : String),
       ¬ (parseCSVupload tz text).1.length = 0 →
       ((uploadIngest tz st text now).2.snapshots.getLast?).map Snapshot.timestamp =
         some (jsOrS (parseCSVupload tz text).2 now)) := by
  refine ⟨fun tz text bi bei hlen hbi hbei => ?_, fun text bi bei hlen hbi hbei => ?_,
    fun tz st now text hrows => ?_⟩
  · rw [show parseCSVupload tz text =
      parseCSVwith (routeParseLastUpdated tz) text from rfl,
      parseCSVwith_spec (routeParseLastUpdated tz) (routePLU_ne_empty tz) text
        bi bei hlen hbi hbei]
  · rw [show parseCSVfetch text = parseCSVwith fetchParseLastUpdated text from rfl,
      parseCSVwith_spec fetchParseLastUpdated fetchPLU_ne_empty text
        bi bei hlen hbi hbei]
  · unfold uploadIngest
    rw [if_neg hrows]
    dsimp only
    rw [List.getLast?_concat]
    rfl

/-- C10 witness: a first updated-at cell that fails to parse is passed
over and the second line's cell supplies the snapshot timestamp; with no
updated-at column the wall clock is committed. -/
theorem snapshot_timestamp_first_parsed_w :
    (parseCSVfetch "Building,Beds,Last Updated\nA,1,bogus\nB,2,3/8/2026 1:00 PM").2 =
      firstParsedTimestamp fetchParseLastUpdated
        (findCol (headersOf
          "Building,Beds,Last Updated\nA,1,bogus\nB,2,3/8/2026 1:00 PM") updatedKws)
        0 ((linesOf "Building,Beds,Last Updated\nA,1,bogus\nB,2,3/8/2026 1:00 PM").drop 1) ∧
    (parseCSVfetch "Building,Beds,Last Updated\nA,1,bogus\nB,2,3/8/2026 1:00 PM").2 =
      some "2026-03-08T13:00:00-07:00" ∧
    ((uploadIngest (fun _ => 0) ⟨[], none⟩ "Building,Beds\nHedrick,5"
        "2026-03-02T17:00:00.000Z").2.snapshots.getLast?).map Snapshot.timestamp =
      some (jsOrS ((parseCSVupload (fun _ => 0) "Building,Beds\nHedrick,5").2)
        "2026-03-02T17:00:00.000Z") ∧
    jsOrS (parseCSVupload (fun _ => 0) "Building,Beds\nHedrick,5").2
        "2026-03-02T17:00:00.000Z" = "2026-03-02T17:00:00.000Z" :=
  ⟨snapshot_timestamp_first_parsed.2.1 _ 0 1 (by decide) (by decide) (by decide),
   by decide,
   snapshot_timestamp_first_parsed.2.2 (fun _ => 0) ⟨[], none⟩
     "2026-03-02T17:00:00.000Z" "Building,Beds\nHedrick,5" (by decide),
   by decide⟩

/-! ## Grouping lemmas for the aggregation engine -/

theorem sumKey_cons (r : Row) (rows : List Row) (k : String × String) :
    sumKey (r :: rows) k =
      (if keyOf r = k then r.bedSpaces else 0) + sumKey rows k := by
  unfold sumKey
  by_cases h : keyOf r = k <;> simp [List.filter_cons, h]

theorem sumKey_zero_of_no_match (rows : List Row) (k : String × String)
    (h : rows.any (fun r => keyOf r = k) = false) : sumKey rows k = 0 := by
  unfold sumKey
  have hf : rows.filter (fun r => decide (keyOf r = k)) = [] := by
    rw [List.filter_eq_nil_iff]
    intro a ha hk
    simp only [List.any_eq_false, decide_eq_true_eq] at h
    exact h a ha (by simpa using hk)
  rw [hf]
  rfl

theorem lookupTotal_bump (k0 : String × String) (n : Int)
    (m : List ((String × String) × Int)) (k : String × String) :
    lookupTotal (bumpTotal k0 n m) k =
      if k0 = k then some ((lookupTotal m k).getD 0 + n)
      else lookupTotal m k := by
  induction m with
  | nil =>
    by_cases h : k0 = k <;> simp [bumpTotal, lookupTotal, h]
  | cons p t ih =>
    obtain ⟨k', v⟩ := p
    simp only [bumpTotal]
    by_cases h1 : k' = k0
    · subst h1
      rw [if_pos rfl]
      by_cases h2 : k' = k
      · simp [lookupTotal, h2]
      · simp [lookupTotal, h2]
    · rw [if_neg h1]
      by_cases h2 : k' = k
      · have hk0 : ¬ k0 = k := fun h => h1 (h2.trans h.symm)
        simp [lookupTotal, h2, hk0]
      · simp only [lookupTotal]
        rw [if_neg h2, if_neg h2, ih]

theorem lookupTotal_fold (rows : List Row)
    (m : List ((String × String) × Int)) (k : String × String) :
    lookupTotal
        (rows.foldl (fun acc r => bumpTotal (keyOf r) r.bedSpaces acc) m) k =
      if rows.any (fun r => keyOf r = k)
      then some ((lookupTotal m k).getD 0 + sumKey rows k)
      else lookupTotal m k := by
  induction rows generalizing m with
  | nil => simp [sumKey]
  | cons r rows ih =>
    simp only [List.foldl_cons, List.any_cons]
    rw [ih (bumpTotal (keyOf r) r.bedSpaces m), lookupTotal_bump, sumKey_cons]
    by_cases h1 : keyOf r = k
    · by_cases h2 : rows.any (fun r => keyOf r = k) = true
      · simp [h1, h2]
        omega
      · have h2f : (rows.any fun r => keyOf r = k) = false := by simpa using h2
        have hz := sumKey_zero_of_no_match rows k h2f
        simp [h1, h2f, hz]
    · by_cases h2 : rows.any (fun r => keyOf r = k) = true
      · simp [h1, h2]
      · have h2f : (rows.any fun r => keyOf r = k) = false := by simpa using h2
        simp [h1, h2f]

/-- `lookupTotal` of the `prevTotals` record: present exactly for the
keys occurring in the rows, with the summed bed spaces as value. -/
theorem lookupTotal_totalsMap (rows : List Row) (k : String × String) :
    lookupTotal (totalsMap rows) k =
      if rows.any (fun r => keyOf r = k)
      then some (sumKey rows k) else none := by
  unfold totalsMap
  rw [lookupTotal_fold]
  by_cases h : rows.any (fun r => keyOf r = k)
  · rw [if_pos h, if_pos h]
    simp [lookupTotal]
  · rw [if_neg h, if_neg h]
    rfl

theorem bumpGroup_keys (r : Row) (m : List GroupedRow) :
    (bumpGroup r m).map GroupedRow.key =
      if m.any (fun g => g.key = keyOf r)
      then m.map GroupedRow.key
      else m.map GroupedRow.key ++ [keyOf r] := by
  induction m with
  | nil => simp [bumpGroup, freshGroup]
  | cons g t ih =>
    simp only [bumpGroup, List.any_cons]
    by_cases h : g.key = keyOf r
    · simp [h, accGroup]
    · simp only [h, decide_False, Bool.false_or, List.map_cons]
      by_cases h2 : t.any (fun g => g.key = keyOf r) <;> simp [bumpGroup, h, h2, ih]

theorem foldGroup_keys_nodup (rows : List Row) (m : List GroupedRow)
    (hm : (m.map GroupedRow.key).Nodup) :
    (((rows.foldl (fun acc r => bumpGroup r acc) m)).map GroupedRow.key).Nodup := by
  induction rows generalizing m with
  | nil => exact hm
  | cons r rows ih =>
    simp only [List.foldl_cons]
    apply ih
    rw [bumpGroup_keys]
    by_cases h : m.any (fun g => g.key = keyOf r)
    · rw [if_pos h]; exact hm
    · rw [if_neg h]
      rw [List.nodup_append]
      refine ⟨hm, List.nodup_singleton _, ?_⟩
      intro a ha
      simp only [List.mem_singleton]
      intro he
      subst he
      rw [List.mem_map] at ha
      obtain ⟨g, hg, hk⟩ := ha
      simp only [List.any_eq_true] at h
      exact h ⟨g, hg, by simp [hk]⟩

theorem lookupG_bump (r : Row) (m : List GroupedRow) (k : String × String) :
    lookupG (bumpGroup r m) k =
      if keyOf r = k then
        some (match lookupG m (keyOf r) with
              | none => freshGroup r
              | some g => accGroup g r)
      else lookupG m k := by
  induction m with
  | nil =>
    by_cases h : keyOf r = k <;>
      simp [bumpGroup, lookupG, freshGroup, h]
  | cons g t ih =>
    simp only [bumpGroup]
    by_cases h1 : g.key = keyOf r
    · rw [if_pos h1]
      have hkey : (accGroup g r).key = g.key := rfl
      by_cases h2 : keyOf r = k
      · have h3 : g.key = k := h1.trans h2
        rw [show lookupG (accGroup g r :: t) k
            = if (accGroup g r).key = k then some (accGroup g r) else lookupG t k from rfl,
          if_pos (hkey.trans h3), if_pos h2,
          show lookupG (g :: t) (keyOf r)
            = if g.key = keyOf r then some g else lookupG t (keyOf r) from rfl,
          if_pos h1]
      · have h3 : ¬ g.key = k := fun he => h2 (h1.symm.trans he)
        rw [show lookupG (accGroup g r :: t) k
            = if (accGroup g r).key = k then some (accGroup g r) else lookupG t k from rfl,
          if_neg (by rw [hkey]; exact h3), if_neg h2,
          show lookupG (g :: t) k
            = if g.key = k then some g else lookupG t k from rfl,
          if_neg h3]
    · rw [if_neg h1]
      by_cases hgk : g.key = k
      · by_cases h2 : keyOf r = k
        · exact absurd (hgk.trans h2.symm) h1
        · rw [show lookupG (g :: bumpGroup r t) k
              = if g.key = k then some g else lookupG (bumpGroup r t) k from rfl,
            if_pos hgk, if_neg h2,
            show lookupG (g :: t) k
              = if g.key = k then some g else lookupG t k from rfl,
            if_pos hgk]
      · rw [show lookupG (g :: bumpGroup r t) k
            = if g.key = k then some g else lookupG (bumpGroup r t) k from rfl,
          if_neg hgk, ih]
        by_cases h2 : keyOf r = k
        · rw [if_pos h2, if_pos h2,
            show lookupG (g :: t) (keyOf r)
              = if g.key = keyOf r then some g else lookupG t (keyOf r) from rfl,
            if_neg h1]
        · rw [if_neg h2, if_neg h2,
            show lookupG (g :: t) k
              = if g.key = k then some g else lookupG t k from rfl,
            if_neg hgk]

theorem lookupG_fold_totalBeds (rows : List Row) (m : List GroupedRow)
    (k : String × String) :
    (lookupG (rows.foldl (fun acc r => bumpGroup r acc) m) k).map
        GroupedRow.totalBeds =
      if rows.any (fun r => keyOf r = k)
      then some (((lookupG m k).map GroupedRow.totalBeds).getD 0 + sumKey rows k)
      else (lookupG m k).map GroupedRow.totalBeds := by
  induction rows generalizing m with
  | nil => simp [sumKey]
  | cons r rows ih =>
    simp only [List.foldl_cons, List.any_cons]
    rw [ih (bumpGroup r m), lookupG_bump, sumKey_cons]
    by_cases h1 : keyOf r = k
    · cases hm : lookupG m (keyOf r) with
      | none =>
        have hmk : lookupG m k = none := by rw [← h1]; exact hm
        by_cases h2 : rows.any (fun r => keyOf r = k) = true
        · simp [h1, hm, h2, hmk, freshGroup]
        · have h2f : (rows.any fun r => keyOf r = k) = false := by simpa using h2
          have hz := sumKey_zero_of_no_match rows k h2f
          simp [h1, hm, h2f, hmk, hz, freshGroup]
      | some g =>
        have hmk : lookupG m k = some g := by rw [← h1]; exact hm
        by_cases h2 : rows.any (fun r => keyOf r = k) = true
        · simp [h1, hm, h2, hmk, accGroup]
          omega
        · have h2f : (rows.any fun r => keyOf r = k) = false := by simpa using h2
          have hz := sumKey_zero_of_no_match rows k h2f
          simp [h1, hm, h2f, hmk, hz, accGroup]
    · by_cases h2 : rows.any (fun r => keyOf r = k) = true
      · simp [h1, h2]
      · have h2f : (rows.any fun r => keyOf r = k) = false := by simpa using h2
        simp [h1, h2f]

theorem lookupG_fold_change (rows : List Row) (m : List GroupedRow)
    (k : String × String) :
    ((lookupG (rows.foldl (fun acc r => bumpGroup r acc) m) k).map
        GroupedRow.change).getD none =
      ((lookupG m k).map GroupedRow.change).getD none := by
  induction rows generalizing m with
  | nil => rfl
  | cons r rows ih =>
    simp only [List.foldl_cons]
    rw [ih (bumpGroup r m), lookupG_bump]
    by_cases h1 : keyOf r = k
    · cases hm : lookupG m (keyOf r) with
      | none =>
        have hmk : lookupG m k = none := by rw [← h1]; exact hm
        simp [h1, hmk, freshGroup]
      | some g =>
        have hmk : lookupG m k = some g := by rw [← h1]; exact hm
        simp [h1, hmk, accGroup]
    · simp [h1]

theorem lookupG_of_mem (m : List GroupedRow) (g : GroupedRow)
    (hnd : (m.map GroupedRow.key).Nodup) (hm : g ∈ m) :
    lookupG m g.key = some g := by
  induction m with
  | nil => exact absurd hm (by simp)
  | cons h t ih =>
    rcases List.mem_cons.1 hm with he | ht
    · subst he
      simp [lookupG]
    · have hk : ¬ h.key = g.key := by
        intro hkk
        have : g.key ∈ t.map GroupedRow.key := List.mem_map_of_mem _ ht
        rw [List.map_cons, List.nodup_cons] at hnd
        exact hnd.1 (hkk ▸ this)
      simp only [lookupG]
      rw [if_neg hk]
      exact ih (by rw [List.map_cons, List.nodup_cons] at hnd; exact hnd.2) ht

/-- Per-entry characterisation of the grouping pass: every grouped row's
`totalBeds` is the sum of the filtered rows with its key, and its
`change` is still `null`. -/
theorem groupRows_entry (rows : List Row) (g : GroupedRow)
    (hg : g ∈ groupRows rows) :
    g.totalBeds = sumKey rows g.key ∧ g.change = none := by
  have hnd : ((groupRows rows).map GroupedRow.key).Nodup :=
    foldGroup_keys_nodup rows [] (by simp)
  have hlk : lookupG (groupRows rows) g.key = some g :=
    lookupG_of_mem _ _ hnd hg
  have hany : (rows.any (fun r => keyOf r = g.key)) = true := by
    by_contra hn
    have hn' : (rows.any fun r => keyOf r = g.key) = false := by simpa using hn
    have := lookupG_fold_totalBeds rows [] g.key
    unfold groupRows at hlk
    rw [hlk, hn'] at this
    simp [lookupG] at this
  constructor
  · have := lookupG_fold_totalBeds rows [] g.key
    unfold groupRows at hlk
    rw [hlk, hany] at this
    simpa [lookupG] using this
  · have := lookupG_fold_change rows [] g.key
    unfold groupRows at hlk
    rw [hlk] at this
    simpa [lookupG] using this

theorem insertCmp_perm (le : GroupedRow → GroupedRow → Bool)
    (x : GroupedRow) (l : List GroupedRow) :
    (insertCmp le x l).Perm (x :: l) := by
  induction l with
  | nil => exact List.Perm.refl _
  | cons y ys ih =>
    simp only [insertCmp]
    by_cases h : le y x
    · rw [if_pos h]
      exact (ih.cons y).trans (List.Perm.swap x y ys)
    · rw [if_neg h]

theorem sortTable_perm (le : GroupedRow → GroupedRow → Bool)
    (l : List GroupedRow) : (sortTable le l).Perm l := by
  have main : ∀ (l acc : List GroupedRow),
      (l.foldl (fun a x => insertCmp le x a) acc).Perm (acc ++ l) := by
    intro l
    induction l with
    | nil => intro acc; simp
    | cons x xs ih =>
      intro acc
      simp only [List.foldl_cons]
      refine (ih (insertCmp le x acc)).trans ?_
      refine (List.Perm.append_right xs (insertCmp_perm le x acc)).trans ?_
      simpa using (@List.perm_middle _ x acc xs).symm
  simpa using main l []

/-- Membership in the rendered table is membership in the
change-annotated grouping of the filtered latest rows. -/
theorem mem_computeTable (slc : String → String → Int) (latest : List Row)
    (prev : Option (List Row)) (gender bld rt q : String)
    (sf : SortField) (asc : Bool) (g : GroupedRow) :
    g ∈ computeTable slc latest prev gender bld rt q sf asc ↔
      g ∈ (groupRows (filterRows gender bld rt q latest)).map
        (applyChange (prev.map (fun p => totalsMap (filterRows gender bld rt q p)))) := by
  unfold computeTable
  exact (sortTable_perm _ _).mem_iff

/-! ## C5 -/

/-- C5 (confirmed): every rendered GroupedRow's `totalBeds` is the bed
sum of the filtered latest rows with its key, and its `change` equals
that total minus the identically-filtered previous total exactly when
the key occurs in the filtered previous snapshot; the change is absent
(`null`, not 0) when the key is missing from the filtered previous set
or no previous snapshot exists. -/
theorem change_semantics (slc : String → String → Int) (snaps : List Snapshot)
    (gender bld rt q : String) (sf : SortField) (asc : Bool) (g : GroupedRow)
    (hg : g ∈ tableOf slc snaps gender bld rt q sf asc) :
    g.totalBeds = sumKey (filterRows gender bld rt q (latestRows snaps)) g.key ∧
    (prevRows snaps = none → g.change = none) ∧
    (∀ p, prevRows snaps = some p →
      (((filterRows gender bld rt q p).any (fun r => keyOf r = g.key)) = true →
        g.change = some (g.totalBeds -
          sumKey (filterRows gender bld rt q p) g.key)) ∧
      (((filterRows gender bld rt q p).any (fun r => keyOf r = g.key)) = false →
        g.change = none)) := by
  unfold tableOf at hg
  rw [mem_computeTable, List.mem_map] at hg
  obtain ⟨g0, hg0, he⟩ := hg
  have hent := groupRows_entry _ g0 hg0
  have hkey : g.key = g0.key := by
    rw [← he]
    unfold applyChange
    cases (prevRows snaps).map (fun p => totalsMap (filterRows gender bld rt q p)) with
    | none => rfl
    | some m => cases hv : lookupTotal m g0.key <;> simp [hv]
  have htot : g.totalBeds = g0.totalBeds := by
    rw [← he]
    unfold applyChange
    cases (prevRows snaps).map (fun p => totalsMap (filterRows gender bld rt q p)) with
    | none => rfl
    | some m => cases hv : lookupTotal m g0.key <;> simp [hv]
  refine ⟨by rw [htot, hkey]; exact hent.1, ?_, ?_⟩
  · intro hp
    rw [← he]
    unfold applyChange
    rw [hp]
    exact hent.2
  · intro p hp
    constructor
    · intro hany
      rw [← he]
      unfold applyChange
      rw [hp]
      simp only [Option.map_some']
      rw [lookupTotal_totalsMap]
      rw [hkey] at hany
      rw [if_pos hany]
    · intro hnone
      rw [← he]
      unfold applyChange
      rw [hp]
      simp only [Option.map_some']
      rw [lookupTotal_totalsMap]
      rw [hkey] at hnone
      rw [hnone, if_neg (show ¬ (false = true) by simp)]
      exact hent.2

/-- C5 witness: the specification scenario — totals 15 then 12 for
(Hedrick, Unknown) yield the rendered change `-3`; the theorem applied
at that concrete table row. -/
theorem change_semantics_w :
    ((⟨("Hedrick", "Unknown"), "Hedrick", "Unknown", 12,
       [("Female", 8), ("Male", 4)], some (-3)⟩ : GroupedRow) ∈
      tableOf (fun _ _ => 0)
        [⟨"2026-03-02T17:00:00.000Z",
          [⟨"Hedrick", "Unknown", "Female", 10⟩, ⟨"Hedrick", "Unknown", "Male", 5⟩]⟩,
         ⟨"2026-03-02T18:00:00.000Z",
          [⟨"Hedrick", "Unknown", "Female", 8⟩, ⟨"Hedrick", "Unknown", "Male", 4⟩]⟩]
        "All" "All" "All" "" .bedSpaces false) ∧
    ((⟨("Hedrick", "Unknown"), "Hedrick", "Unknown", 12,
       [("Female", 8), ("Male", 4)], some (-3)⟩ : GroupedRow).totalBeds =
      sumKey (filterRows "All" "All" "All" ""
        (latestRows
          [⟨"2026-03-02T17:00:00.000Z",
            [⟨"Hedrick", "Unknown", "Female", 10⟩, ⟨"Hedrick", "Unknown", "Male", 5⟩]⟩,
           ⟨"2026-03-02T18:00:00.000Z",
            [⟨"Hedrick", "Unknown", "Female", 8⟩, ⟨"Hedrick", "Unknown", "Male", 4⟩]⟩]))
        ("Hedrick", "Unknown") ∧
     (prevRows
        [⟨"2026-03-02T17:00:00.000Z",
          [⟨"Hedrick", "Unknown", "Female", 10⟩, ⟨"Hedrick", "Unknown", "Male", 5⟩]⟩,
         ⟨"2026-03-02T18:00:00.000Z",
          [⟨"Hedrick", "Unknown", "Female", 8⟩, ⟨"Hedrick", "Unknown", "Male", 4⟩]⟩] =
        none →
      (⟨("Hedrick", "Unknown"), "Hedrick", "Unknown", 12,
        [("Female", 8), ("Male", 4)], some (-3)⟩ : GroupedRow).change = none) ∧
     (∀ p, prevRows
        [⟨"2026-03-02T17:00:00.000Z",
          [⟨"Hedrick", "Unknown", "Female", 10⟩, ⟨"Hedrick", "Unknown", "Male", 5⟩]⟩,
         ⟨"2026-03-02T18:00:00.000Z",
          [⟨"Hedrick", "Unknown", "Female", 8⟩, ⟨"Hedrick", "Unknown", "Male", 4⟩]⟩] =
        some p →
      (((filterRows "All" "All" "All" "" p).any
          (fun r => keyOf r = ("Hedrick", "Unknown"))) = true →
        (⟨("Hedrick", "Unknown"), "Hedrick", "Unknown", 12,
          [("Female", 8), ("Male", 4)], some (-3)⟩ : GroupedRow).change =
          some ((12 : Int) - sumKey (filterRows "All" "All" "All" "" p)
            ("Hedrick", "Unknown"))) ∧
      (((filterRows "All" "All" "All" "" p).any
          (fun r => keyOf r = ("Hedrick", "Unknown"))) = false →
        (⟨("Hedrick", "Unknown"), "Hedrick", "Unknown", 12,
          [("Female", 8), ("Male", 4)], some (-3)⟩ : GroupedRow).change = none))) :=
  ⟨by decide,
   change_semantics (fun _ _ => 0) _ "All" "All" "All" "" .bedSpaces false _
     (by decide)⟩

/-! ## Column-permutation lemmas -/

theorem applyPerm_getD (p : List Nat) (l : List (List Char)) (j : Nat)
    (hj : j < p.length) :
    (applyPerm p l).getD j [] = l.getD (p.getD j 0) [] := by
  unfold applyPerm
  rw [List.getD_eq_getElem _ _ (by simpa using hj), List.getElem_map,
    List.getD_eq_getElem _ _ hj]

theorem map_getD_range (l : List α) (d : α) :
    (List.range l.length).map (fun i => l.getD i d) = l := by
  apply List.ext_getElem
  · simp
  · intro i h1 h2
    simp only [List.getElem_map, List.getElem_range]
    exact List.getD_eq_getElem l d h2

theorem applyPerm_perm (p : List Nat) (l : List (List Char))
    (hp : p.Perm (List.range l.length)) : (applyPerm p l).Perm l := by
  unfold applyPerm
  have h1 := hp.map (fun i => l.getD i [])
  rw [map_getD_range] at h1
  exact h1

theorem perm_range_of (p : List Nat) (n : Nat) (hlen : p.length = n)
    (hb : ∀ i ∈ p, i < n) (hnd : p.Nodup) : p.Perm (List.range n) := by
  refine (List.subperm_of_subset hnd ?_).perm_of_length_le (by simp [hlen])
  intro i hi
  exact List.mem_range.2 (hb i hi)

theorem fidx_isSome_iff (pr : α → Bool) (l : List α) :
    (fidx pr l).isSome = true ↔ ∃ x ∈ l, pr x = true := by
  induction l with
  | nil => simp [fidx]
  | cons a t ih =>
    by_cases h : pr a
    · simp [fidx, h]
    · simp [fidx, h, ih]

theorem fidx_eq_some (pr : α → Bool) (l : List α) (d : α) (i : Nat)
    (h : fidx pr l = some i) : i < l.length ∧ pr (l.getD i d) = true := by
  induction l generalizing i with
  | nil => exact absurd h (by simp [fidx])
  | cons a t ih =>
    by_cases ha : pr a
    · simp only [fidx, if_pos ha, Option.some.injEq] at h
      subst h
      simpa using ha
    · simp only [fidx, if_neg ha] at h
      cases hf : fidx pr t with
      | none => rw [hf] at h; exact absurd h (by simp)
      | some i' =>
        rw [hf] at h
        simp only [Option.map_some', Option.some.injEq] at h
        subst h
        have := ih i' hf
        constructor
        · simpa using Nat.succ_lt_succ this.1
        · simpa using this.2

theorem fidx_none_iff (pr : α → Bool) (l : List α) :
    fidx pr l = none ↔ ∀ x ∈ l, ¬ pr x = true := by
  constructor
  · intro h x hx hp
    have : (fidx pr l).isSome = true := (fidx_isSome_iff pr l).2 ⟨x, hx, hp⟩
    rw [h] at this
    exact Bool.noConfusion this
  · intro h
    cases hf : fidx pr l with
    | none => rfl
    | some i =>
      exfalso
      have hs : (fidx pr l).isSome = true := by rw [hf]; rfl
      obtain ⟨x, hx, hp⟩ := (fidx_isSome_iff pr l).1 hs
      exact h x hx hp

theorem fidx_applyPerm_none (p : List Nat) (nh : List (List Char))
    (pr : List Char → Bool) (hp : p.Perm (List.range nh.length))
    (h : fidx pr nh = none) : fidx pr (applyPerm p nh) = none := by
  rw [fidx_none_iff] at h ⊢
  intro x hx
  exact h x ((applyPerm_perm p nh hp).subset hx)

theorem fidx_applyPerm_some (p : List Nat) (nh : List (List Char))
    (pr : List Char → Bool) (hlen : p.length = nh.length)
    (hb : ∀ i ∈ p, i < nh.length) (hnd : p.Nodup)
    (huniq : ∀ i j, i < nh.length → j < nh.length →
      pr (nh.getD i []) = true → pr (nh.getD j []) = true → i = j)
    (i0 : Nat) (h : fidx pr nh = some i0) :
    ∃ j, fidx pr (applyPerm p nh) = some j ∧ j < p.length ∧ p.getD j 0 = i0 := by
  have hp := perm_range_of p nh.length hlen hb hnd
  have hi0 := fidx_eq_some pr nh [] i0 h
  have hmem : i0 ∈ p := hp.mem_iff.2 (List.mem_range.2 hi0.1)
  obtain ⟨jw, hjw, hpj⟩ := List.getElem_of_mem hmem
  have hx : (applyPerm p nh).getD jw [] = nh.getD i0 [] := by
    rw [applyPerm_getD p nh jw hjw]
    congr 1
    rw [List.getD_eq_getElem _ _ hjw, hpj]
  have hsome : (fidx pr (applyPerm p nh)).isSome = true := by
    rw [fidx_isSome_iff]
    refine ⟨(applyPerm p nh).getD jw [], ?_, ?_⟩
    · rw [List.getD_eq_getElem _ _ (by simpa [applyPerm] using hjw)]
      exact List.getElem_mem _
    · rw [hx]; exact hi0.2
  cases hf : fidx pr (applyPerm p nh) with
  | none => rw [hf] at hsome; exact Bool.noConfusion hsome
  | some j =>
    have hj := fidx_eq_some pr (applyPerm p nh) [] j hf
    have hjlen : j < p.length := by simpa [applyPerm] using hj.1
    have hval : pr (nh.getD (p.getD j 0) []) = true := by
      rw [← applyPerm_getD p nh j hjlen]; exact hj.2
    have hbnd : p.getD j 0 < nh.length := by
      have hm : p.getD j 0 ∈ p := by
        rw [List.getD_eq_getElem _ _ hjlen]; exact List.getElem_mem _
      exact hb _ hm
    exact ⟨j, rfl, hjlen, huniq _ _ hbnd hi0.1 hval hi0.2⟩

theorem findCol_applyPerm (p : List Nat) (nh : List (List Char))
    (kws : List (List Char)) (hlen : p.length = nh.length)
    (hb : ∀ i ∈ p, i < nh.length) (hnd : p.Nodup)
    (huniq : ∀ kw ∈ kws, ∀ i j, i < nh.length → j < nh.length →
      hasSubC kw (nh.getD i []) = true → hasSubC kw (nh.getD j []) = true → i = j) :
    (findCol nh kws = none → findCol (applyPerm p nh) kws = none) ∧
    (∀ i0, findCol nh kws = some i0 →
      ∃ j, findCol (applyPerm p nh) kws = some j ∧ j < p.length ∧
        p.getD j 0 = i0) := by
  have hp := perm_range_of p nh.length hlen hb hnd
  induction kws with
  | nil => simp [findCol]
  | cons kw kws ih =>
    have huniq_head := huniq kw (List.mem_cons_self kw kws)
    have ihh := ih (fun kw2 hkw2 => huniq kw2 (List.mem_cons_of_mem kw hkw2))
    constructor
    · intro h
      simp only [findCol] at h ⊢
      cases hf : fidx (fun h => hasSubC kw h) nh with
      | some i => rw [hf] at h; exact absurd h (by simp)
      | none =>
        rw [hf] at h
        rw [fidx_applyPerm_none p nh _ hp hf]
        exact ihh.1 h
    · intro i0 h
      simp only [findCol] at h ⊢
      cases hf : fidx (fun h => hasSubC kw h) nh with
      | some i =>
        rw [hf] at h
        simp only [Option.some.injEq] at h
        obtain ⟨j, hj, hjl, hjv⟩ :=
          fidx_applyPerm_some p nh _ hlen hb hnd huniq_head i hf
        rw [hj]
        exact ⟨j, rfl, hjl, h ▸ hjv⟩
      | none =>
        rw [hf] at h
        rw [fidx_applyPerm_none p nh _ hp hf]
        exact ihh.2 i0 h

theorem getD_map_norm (l : List (List Char)) (i : Nat) :
    (l.map normHeader).getD i [] = normHeader (l.getD i []) := by
  by_cases h : i < l.length
  · rw [List.getD_eq_getElem _ _ (by simpa using h), List.getElem_map,
      List.getD_eq_getElem _ _ h]
  · rw [List.getD_eq_default _ _ (by simpa using Nat.le_of_not_lt h),
      List.getD_eq_default _ _ (Nat.le_of_not_lt h)]
    rfl

theorem applyPerm_map_norm (p : List Nat) (l : List (List Char)) :
    (applyPerm p l).map normHeader = applyPerm p (l.map normHeader) := by
  unfold applyPerm
  rw [List.map_map]
  apply List.map_congr_left
  intro i _
  exact (getD_map_norm l i).symm

theorem cleanCell_applyPerm (p : List Nat) (cells : List (List Char))
    (j : Nat) (hj : j < p.length) :
    cleanCell (applyPerm p cells) j = cleanCell cells (p.getD j 0) := by
  unfold cleanCell
  rw [applyPerm_getD _ _ _ hj]

theorem buildRow_applyPerm (p : List Nat) (cells : List (List Char))
    (bi bi2 bei bei2 : Nat) (ri gi ri2 gi2 : Option Nat)
    (hbi : bi2 < p.length) (hbiv : p.getD bi2 0 = bi)
    (hbei : bei2 < p.length) (hbeiv : p.getD bei2 0 = bei)
    (hri : (ri2 = none ∧ ri = none) ∨
      ∃ a b, ri2 = some a ∧ ri = some b ∧ a < p.length ∧ p.getD a 0 = b)
    (hgi : (gi2 = none ∧ gi = none) ∨
      ∃ a b, gi2 = some a ∧ gi = some b ∧ a < p.length ∧ p.getD a 0 = b) :
    buildRow bi2 ri2 gi2 bei2 (applyPerm p cells) = buildRow bi ri gi bei cells := by
  have hbed : noQuotes ((applyPerm p cells).getD bei2 []) =
      noQuotes (cells.getD bei []) := by
    rw [applyPerm_getD _ _ _ hbei, hbeiv]
  have hbld : cleanCell (applyPerm p cells) bi2 = cleanCell cells bi := by
    rw [cleanCell_applyPerm _ _ _ hbi, hbiv]
  simp only [buildRow]
  rw [hbld, hbed]
  rcases hri with ⟨h1, h2⟩ | ⟨a, b, h1, h2, ha, hav⟩
  · rcases hgi with ⟨g1, g2⟩ | ⟨c, d, g1, g2, hc, hcv⟩
    · subst h1; subst h2; subst g1; subst g2
      rfl
    · subst h1; subst h2; subst g1; subst g2
      simp only [cleanCell_applyPerm p cells _ hc, hcv]
  · rcases hgi with ⟨g1, g2⟩ | ⟨c, d, g1, g2, hc, hcv⟩
    · subst h1; subst h2; subst g1; subst g2
      simp only [cleanCell_applyPerm p cells _ ha, hav]
    · subst h1; subst h2; subst g1; subst g2
      simp only [cleanCell_applyPerm p cells _ ha, hav,
        cleanCell_applyPerm p cells _ hc, hcv]

/-! ## C9 -/

/-- C9 (counterexample): column resolution is not order-independent.
With two headers both containing the keyword `bed`, `findIndex` ties
break by header position, so permuting the columns (headers and data
cells alike) selects a different column as the bed count and yields
different Rows — exhibited both at the structured level and on the raw
texts the permutation relates. -/
theorem column_resolution_order_dependent :
    rowsOfCells ["building".data, "bedx".data, "bedy".data]
        [["A".data, "5".data, "7".data]] =
      [⟨"A", "Unknown", "All", 5⟩] ∧
    applyPerm [0, 2, 1] ["building".data, "bedx".data, "bedy".data] =
      ["building".data, "bedy".data, "bedx".data] ∧
    [["A".data, "5".data, "7".data]].map (applyPerm [0, 2, 1]) =
      [["A".data, "7".data, "5".data]] ∧
    rowsOfCells (applyPerm [0, 2, 1] ["building".data, "bedx".data, "bedy".data])
        ([["A".data, "5".data, "7".data]].map (applyPerm [0, 2, 1])) =
      [⟨"A", "Unknown", "All", 7⟩] ∧
    ([0, 2, 1] : List Nat).Nodup ∧
    ([0, 2, 1] : List Nat).length = 3 ∧
    (∀ i ∈ ([0, 2, 1] : List Nat), i < 3) ∧
    ¬ ([⟨"A", "Unknown", "All", 7⟩] : List Row) = [⟨"A", "Unknown", "All", 5⟩] ∧
    (parseCSVfetch "building,bedx,bedy\nA,5,7").1 = [⟨"A", "Unknown", "All", 5⟩] ∧
    (parseCSVfetch "building,bedy,bedx\nA,7,5").1 = [⟨"A", "Unknown", "All", 7⟩] := by
  decide

/-- C9 (amended): column resolution is order-independent for unambiguous
headers: when no keyword of the four row-determining roles is contained
in two different headers, permuting the header columns and the cells of
every data row by the same permutation yields identical parsed Rows. -/
theorem column_resolution_perm_invariant (hsRaw : List (List Char))
    (cellRows : List (List (List Char))) (p : List Nat)
    (hlen : p.length = hsRaw.length)
    (hb : ∀ i ∈ p, i < hsRaw.length)
    (hnd : p.Nodup)
    (huniq : ∀ i, i < hsRaw.length → ∀ j, j < hsRaw.length → ∀ kw ∈ rowKws,
      hasSubC kw (normHeader (hsRaw.getD i [])) = true →
      hasSubC kw (normHeader (hsRaw.getD j [])) = true → i = j) :
    rowsOfCells (applyPerm p hsRaw) (cellRows.map (applyPerm p)) =
      rowsOfCells hsRaw cellRows := by
  unfold rowsOfCells
  rw [applyPerm_map_norm]
  have hlen2 : p.length = (hsRaw.map normHeader).length := by simpa using hlen
  have hb2 : ∀ i ∈ p, i < (hsRaw.map normHeader).length := by
    intro i hi
    simpa using hb i hi
  have huniq2 : ∀ kw ∈ rowKws, ∀ i j, i < (hsRaw.map normHeader).length →
      j < (hsRaw.map normHeader).length →
      hasSubC kw ((hsRaw.map normHeader).getD i []) = true →
      hasSubC kw ((hsRaw.map normHeader).getD j []) = true → i = j := by
    intro kw hkw i j hi hj h1 h2
    rw [getD_map_norm] at h1 h2
    exact huniq i (by simpa using hi) j (by simpa using hj) kw hkw h1 h2
  have Hbuild := findCol_applyPerm p (hsRaw.map normHeader) buildingKws hlen2 hb2 hnd
    (fun kw hkw => huniq2 kw (by unfold rowKws; simp [hkw]))
  have Hroom := findCol_applyPerm p (hsRaw.map normHeader) roomTypeKws hlen2 hb2 hnd
    (fun kw hkw => huniq2 kw (by unfold rowKws; simp [hkw]))
  have Hgender := findCol_applyPerm p (hsRaw.map normHeader) genderKws hlen2 hb2 hnd
    (fun kw hkw => huniq2 kw (by unfold rowKws; simp [hkw]))
  have Hbed := findCol_applyPerm p (hsRaw.map normHeader) bedKws hlen2 hb2 hnd
    (fun kw hkw => huniq2 kw (by unfold rowKws; simp [hkw]))
  cases hcb : findCol (hsRaw.map normHeader) buildingKws with
  | none =>
    rw [Hbuild.1 hcb]
  | some bi0 =>
    obtain ⟨jb, hjb, hjbl, hjbv⟩ := Hbuild.2 bi0 hcb
    rw [hjb]
    cases hce : findCol (hsRaw.map normHeader) bedKws with
    | none =>
      rw [Hbed.1 hce]
    | some be0 =>
      obtain ⟨je, hje, hjel, hjev⟩ := Hbed.2 be0 hce
      rw [hje]
      dsimp only
      rw [List.filterMap_map]
      have hropt : (findCol (applyPerm p (hsRaw.map normHeader)) roomTypeKws = none ∧
          findCol (hsRaw.map normHeader) roomTypeKws = none) ∨
          ∃ a b, findCol (applyPerm p (hsRaw.map normHeader)) roomTypeKws = some a ∧
            findCol (hsRaw.map normHeader) roomTypeKws = some b ∧
            a < p.length ∧ p.getD a 0 = b := by
        cases hcr : findCol (hsRaw.map normHeader) roomTypeKws with
        | none => exact Or.inl ⟨Hroom.1 hcr, rfl⟩
        | some r0 =>
          obtain ⟨jr, hjr, hjrl, hjrv⟩ := Hroom.2 r0 hcr
          exact Or.inr ⟨jr, r0, hjr, rfl, hjrl, hjrv⟩
      have hgopt : (findCol (applyPerm p (hsRaw.map normHeader)) genderKws = none ∧
          findCol (hsRaw.map normHeader) genderKws = none) ∨
          ∃ a b, findCol (applyPerm p (hsRaw.map normHeader)) genderKws = some a ∧
            findCol (hsRaw.map normHeader) genderKws = some b ∧
            a < p.length ∧ p.getD a 0 = b := by
        cases hcg : findCol (hsRaw.map normHeader) genderKws with
        | none => exact Or.inl ⟨Hgender.1 hcg, rfl⟩
        | some g0 =>
          obtain ⟨jg, hjg, hjgl, hjgv⟩ := Hgender.2 g0 hcg
          exact Or.inr ⟨jg, g0, hjg, rfl, hjgl, hjgv⟩
      exact congrArg (fun f => List.filterMap f cellRows)
        (funext (fun cells => buildRow_applyPerm p cells bi0 jb be0 je
          (findCol (hsRaw.map normHeader) roomTypeKws)
          (findCol (hsRaw.map normHeader) genderKws)
          (findCol (applyPerm p (hsRaw.map normHeader)) roomTypeKws)
          (findCol (applyPerm p (hsRaw.map normHeader)) genderKws)
          hjbl hjbv hjel hjev hropt hgopt))

/-- C9 witness: an unambiguous header triple is invariant under the
cyclic permutation `[2, 0, 1]` of its columns. -/
theorem column_resolution_perm_invariant_w :
    rowsOfCells
        (applyPerm [2, 0, 1] ["building".data, "gender".data, "beds".data])
        ([["Hedrick".data, "Female".data, "10".data]].map (applyPerm [2, 0, 1])) =
      rowsOfCells ["building".data, "gender".data, "beds".data]
        [["Hedrick".data, "Female".data, "10".data]] ∧
    rowsOfCells ["building".data, "gender".data, "beds".data]
        [["Hedrick".data, "Female".data, "10".data]] =
      [⟨"Hedrick", "Unknown", "Female", 10⟩] :=
  ⟨column_resolution_perm_invariant
     ["building".data, "gender".data, "beds".data]
     [["Hedrick".data, "Female".data, "10".data]] [2, 0, 1]
     (by decide) (by decide) (by decide) (by decide),
   by decide⟩
